import Mathlib

/-!
Verification of the recurring-event engine of the `chosen_api` repository
(`src/routers/event.py`, `src/models/event.py`, `src/utils/timezone_utils.py`).

The embedding models Python `datetime` values at second granularity
(microseconds are not modelled; every code path under scrutiny constructs
datetimes from year/month/day/hour/minute/second only) as a proleptic
Gregorian calendar date plus a seconds-of-day field.  `timedelta` values are
plain integers (seconds).  `dateutil.relativedelta` month/year addition is
modelled with the same day-clamping semantics the library implements, and
the code paths that assume `relativedelta` is importable (the repository
ships with `python-dateutil`) are the ones embedded.
-/

/-! ## Calendar arithmetic (proleptic Gregorian, as used by Python datetime) -/

def isLeap (y : Nat) : Bool :=
  (y % 4 == 0 && y % 100 != 0) || y % 400 == 0

def daysInMonth (y : Nat) (m : Nat) : Nat :=
  match m with
  | 1 => 31
  | 2 => if isLeap y then 29 else 28
  | 3 => 31
  | 4 => 30
  | 5 => 31
  | 6 => 30
  | 7 => 31
  | 8 => 31
  | 9 => 30
  | 10 => 31
  | 11 => 30
  | 12 => 31
  | _ => 30

/-- Days in year `y` that precede the first day of month `m`. -/
def daysBeforeMonth (y : Nat) : Nat → Nat
  | 0 => 0
  | 1 => 0
  | m + 2 => daysBeforeMonth y (m + 1) + daysInMonth y (m + 1)

/-- Number of leap years strictly before year `y` (counting from year 1). -/
def leapsBefore (y : Nat) : Nat :=
  (y - 1) / 4 + (y - 1) / 400 - (y - 1) / 100

/-- Day index of a civil date: 0001-01-01 has index 0 (a Monday in the
proleptic Gregorian calendar, so weekday = index mod 7 with Monday = 0,
matching Python `datetime.weekday`). -/
def dayIdx (y m d : Nat) : Nat :=
  365 * (y - 1) + leapsBefore y + daysBeforeMonth y m + (d - 1)

/-! ## The datetime value: civil date plus seconds-of-day -/

structure DT where
  y : Nat
  mo : Nat
  dy : Nat
  sod : Nat
  deriving DecidableEq, Repr

def DT.Valid (t : DT) : Prop :=
  1 ≤ t.y ∧ 1 ≤ t.mo ∧ t.mo ≤ 12 ∧ 1 ≤ t.dy ∧ t.dy ≤ daysInMonth t.y t.mo ∧
    t.sod < 86400

instance (t : DT) : Decidable t.Valid := by
  unfold DT.Valid; infer_instance

/-- Calendar-day index of a datetime (its `.date()`, as a day number). -/
def DT.dateIdx (t : DT) : Nat := dayIdx t.y t.mo t.dy

/-- Absolute time in seconds since 0001-01-01 00:00:00; Python datetime
comparison and subtraction coincide with comparison and subtraction of this
value. -/
def DT.toAbs (t : DT) : Int := (t.dateIdx : Int) * 86400 + t.sod

/-- Python `datetime.weekday()`: Monday = 0 … Sunday = 6. -/
def DT.weekday (t : DT) : Int := ((t.dateIdx % 7 : Nat) : Int)

/-- The next calendar day (same time of day). -/
def succDay (t : DT) : DT :=
  if t.dy < daysInMonth t.y t.mo then ⟨t.y, t.mo, t.dy + 1, t.sod⟩
  else if t.mo < 12 then ⟨t.y, t.mo + 1, 1, t.sod⟩
  else ⟨t.y + 1, 1, 1, t.sod⟩

/-- The previous calendar day (same time of day). -/
def predDay (t : DT) : DT :=
  if 1 < t.dy then ⟨t.y, t.mo, t.dy - 1, t.sod⟩
  else if 1 < t.mo then ⟨t.y, t.mo - 1, daysInMonth t.y (t.mo - 1), t.sod⟩
  else ⟨t.y - 1, 12, 31, t.sod⟩

/-- `t + timedelta(days=k)` for `k ≥ 0`. -/
def addDays (k : Nat) (t : DT) : DT := succDay^[k] t

/-- `t + delta` for an arbitrary signed number of seconds: the model of
adding a Python `timedelta` to a datetime. -/
def addSecs (n : Int) (t : DT) : DT :=
  if 0 ≤ (n + (t.sod : Int)).ediv 86400 then
    addDays ((n + (t.sod : Int)).ediv 86400).toNat
      ⟨t.y, t.mo, t.dy, ((n + (t.sod : Int)).emod 86400).toNat⟩
  else
    predDay^[(-((n + (t.sod : Int)).ediv 86400)).toNat]
      ⟨t.y, t.mo, t.dy, ((n + (t.sod : Int)).emod 86400).toNat⟩

/-- `dateutil.relativedelta(months=k)` addition: advance the (year, month)
pair by `k` months and clamp the day-of-month into the target month. -/
def monthAdd (k : Nat) (t : DT) : DT :=
  let m0 := t.mo - 1 + k
  let y2 := t.y + m0 / 12
  let m2 := m0 % 12 + 1
  ⟨y2, m2, min t.dy (daysInMonth y2 m2), t.sod⟩

/-- `dateutil.relativedelta(years=k)` addition (clamps Feb 29). -/
def yearAdd (k : Nat) (t : DT) : DT :=
  ⟨t.y + k, t.mo, min t.dy (daysInMonth (t.y + k) t.mo), t.sod⟩

/-! ## Basic calendar lemmas -/

theorem daysInMonth_pos (y m : Nat) : 0 < daysInMonth y m := by
  unfold daysInMonth
  rcases m with _ | _ | _ | _ | _ | _ | _ | _ | _ | _ | _ | _ | _ | m <;>
    simp <;> split <;> omega

theorem daysInMonth_le_31 (y m : Nat) : daysInMonth y m ≤ 31 := by
  unfold daysInMonth
  rcases m with _ | _ | _ | _ | _ | _ | _ | _ | _ | _ | _ | _ | _ | m <;>
    simp <;> split <;> omega

theorem daysBeforeMonth_12 (y : Nat) :
    daysBeforeMonth y 12 + daysInMonth y 12 = 365 + (if isLeap y then 1 else 0) := by
  show daysBeforeMonth y 12 + 31 = _
  simp only [daysBeforeMonth, daysInMonth]
  split <;> omega

theorem leapsBefore_succ (y : Nat) (hy : 1 ≤ y) :
    leapsBefore (y + 1) = leapsBefore y + (if isLeap y then 1 else 0) := by
  unfold leapsBefore isLeap
  rcases y with _ | y
  · omega
  · simp only [Nat.add_sub_cancel]
    by_cases h4 : (y + 1) % 4 = 0 <;> by_cases h100 : (y + 1) % 100 = 0 <;>
      by_cases h400 : (y + 1) % 400 = 0 <;>
      simp [h4, h100, h400] <;> omega

theorem daysBeforeMonth_succ (y m : Nat) (hm : 1 ≤ m) :
    daysBeforeMonth y (m + 1) = daysBeforeMonth y m + daysInMonth y m := by
  rcases m with _ | m
  · omega
  · rfl

theorem succDay_dateIdx (t : DT) (ht : t.Valid) :
    (succDay t).dateIdx = t.dateIdx + 1 := by
  obtain ⟨y, mo, dy, sod⟩ := t
  obtain ⟨h1, h2, h3, h4, h5, h6⟩ := ht
  simp only at h1 h2 h3 h4 h5 h6
  unfold succDay DT.dateIdx dayIdx
  simp only
  split
  · simp only
    omega
  · split
    · simp only
      rw [daysBeforeMonth_succ y mo h2]
      omega
    · simp only
      have hmo : mo = 12 := by omega
      subst hmo
      have hdim : daysInMonth y 12 = 31 := rfl
      have hdy : dy = 31 := by omega
      have h12 := daysBeforeMonth_12 y
      have hls := leapsBefore_succ y h1
      have hdb1 : daysBeforeMonth (y + 1) 1 = 0 := rfl
      subst hdy
      rw [hdim] at h12
      by_cases hL : isLeap y = true
      · simp only [hL, if_true] at hls h12
        omega
      · simp only [hL, if_false] at hls h12
        omega

theorem succDay_valid (t : DT) (ht : t.Valid) : (succDay t).Valid := by
  obtain ⟨y, mo, dy, sod⟩ := t
  obtain ⟨h1, h2, h3, h4, h5, h6⟩ := ht
  simp only at h1 h2 h3 h4 h5 h6
  unfold succDay
  simp only
  split
  · exact ⟨h1, h2, h3, show 1 ≤ dy + 1 by omega,
      show dy + 1 ≤ daysInMonth y mo by omega, h6⟩
  · split
    · exact ⟨h1, show 1 ≤ mo + 1 by omega, show mo + 1 ≤ 12 by omega,
        Nat.le_refl 1, show 1 ≤ daysInMonth y (mo + 1) from daysInMonth_pos _ _, h6⟩
    · exact ⟨show 1 ≤ y + 1 by omega, Nat.le_refl 1, show (1 : Nat) ≤ 12 by omega,
        Nat.le_refl 1, show 1 ≤ daysInMonth (y + 1) 1 from daysInMonth_pos _ _, h6⟩

theorem succDay_sod (t : DT) : (succDay t).sod = t.sod := by
  unfold succDay
  split
  · rfl
  · split <;> rfl

theorem succDay_toAbs (t : DT) (ht : t.Valid) :
    (succDay t).toAbs = t.toAbs + 86400 := by
  unfold DT.toAbs
  rw [succDay_dateIdx t ht, succDay_sod t]
  push_cast
  ring

theorem addDays_succ (n : Nat) (t : DT) : addDays (n + 1) t = succDay (addDays n t) :=
  Function.iterate_succ_apply' succDay n t

theorem addDays_valid (k : Nat) (t : DT) (ht : t.Valid) : (addDays k t).Valid := by
  induction k with
  | zero => exact ht
  | succ n ih =>
      rw [addDays_succ]
      exact succDay_valid _ ih

theorem addDays_dateIdx (k : Nat) (t : DT) (ht : t.Valid) :
    (addDays k t).dateIdx = t.dateIdx + k := by
  induction k with
  | zero => rfl
  | succ n ih =>
      rw [addDays_succ, succDay_dateIdx _ (addDays_valid n t ht)]
      omega

theorem addDays_sod (k : Nat) (t : DT) : (addDays k t).sod = t.sod := by
  induction k with
  | zero => rfl
  | succ n ih =>
      rw [addDays_succ, succDay_sod]
      exact ih

theorem addDays_toAbs (k : Nat) (t : DT) (ht : t.Valid) :
    (addDays k t).toAbs = t.toAbs + 86400 * k := by
  unfold DT.toAbs
  rw [addDays_dateIdx k t ht, addDays_sod k t]
  push_cast
  ring

theorem addDays_add (j k : Nat) (t : DT) :
    addDays j (addDays k t) = addDays (j + k) t := by
  unfold addDays
  rw [← Function.iterate_add_apply]

theorem dayIdx_next_year (y : Nat) (hy : 1 ≤ y) :
    dayIdx (y + 1) 1 1 = dayIdx y 12 31 + 1 := by
  unfold dayIdx
  have h12 := daysBeforeMonth_12 y
  have hls := leapsBefore_succ y hy
  have hdim : daysInMonth y 12 = 31 := rfl
  have hdb1 : daysBeforeMonth (y + 1) 1 = 0 := rfl
  rw [hdim] at h12
  by_cases hL : isLeap y = true
  · simp only [hL, if_true] at hls h12
    omega
  · simp only [hL, if_false] at hls h12
    omega

theorem dayIdx_first_of_next_month (y m : Nat) (hm1 : 1 ≤ m) (hm2 : m ≤ 11) :
    dayIdx y (m + 1) 1 = dayIdx y m (daysInMonth y m) + 1 := by
  unfold dayIdx
  have := daysBeforeMonth_succ y m hm1
  have := daysInMonth_pos y m
  omega

/-- The day index is below the first day of any strictly later month
(months compared through the counter `12 * year + month`). -/
theorem dayIdx_lt_first (v : Nat) :
    ∀ y m d y' m', 12 * y' + m' = v → 1 ≤ y → 1 ≤ m → m ≤ 12 → 1 ≤ d →
      d ≤ daysInMonth y m → 1 ≤ m' → m' ≤ 12 → 12 * y + m < 12 * y' + m' →
      dayIdx y m d < dayIdx y' m' 1 := by
  induction v using Nat.strong_induction_on with
  | _ v ih =>
    intro y m d y' m' hv hy hm1 hm2 hd1 hd2 hm'1 hm'2 hlt
    by_cases h2 : 2 ≤ m'
    · have hstep : dayIdx y' m' 1 = dayIdx y' (m' - 1) (daysInMonth y' (m' - 1)) + 1 := by
        have h := dayIdx_first_of_next_month y' (m' - 1) (by omega) (by omega)
        have hm'' : m' - 1 + 1 = m' := by omega
        rw [hm''] at h
        exact h
      by_cases heq : 12 * y + m = 12 * y' + (m' - 1)
      · have hym : y = y' ∧ m = m' - 1 := by omega
        obtain ⟨hy', hm'⟩ := hym
        subst hy'
        subst hm'
        unfold dayIdx at hstep ⊢
        omega
      · have hih := ih (12 * y' + (m' - 1)) (by omega) y m d y' (m' - 1) rfl hy hm1 hm2
          hd1 hd2 (by omega) (by omega) (by omega)
        have hmono : dayIdx y' (m' - 1) 1 ≤ dayIdx y' (m' - 1) (daysInMonth y' (m' - 1)) := by
          unfold dayIdx
          have := daysInMonth_pos y' (m' - 1)
          omega
        omega
    · have hm'eq : m' = 1 := by omega
      subst hm'eq
      have hy2 : 2 ≤ y' := by omega
      have hstep : dayIdx y' 1 1 = dayIdx (y' - 1) 12 31 + 1 := by
        have h := dayIdx_next_year (y' - 1) (by omega)
        have : y' - 1 + 1 = y' := by omega
        rw [this] at h
        exact h
      by_cases heq : 12 * y + m = 12 * (y' - 1) + 12
      · have hym : y = y' - 1 ∧ m = 12 := by omega
        obtain ⟨hy', hm'⟩ := hym
        have hdim : daysInMonth y 12 = 31 := rfl
        rw [hm'] at hd2
        rw [hdim] at hd2
        rw [hm']
        rw [← hy'] at hstep
        unfold dayIdx at hstep ⊢
        omega
      · have hih := ih (12 * (y' - 1) + 12) (by omega) y m d (y' - 1) 12 rfl hy hm1 hm2
          hd1 hd2 (by omega) (by omega) (by omega)
        have hmono : dayIdx (y' - 1) 12 1 ≤ dayIdx (y' - 1) 12 31 := by
          unfold dayIdx
          omega
        omega

/-- Strict monotonicity of the day index in (month counter, day). -/
theorem dayIdx_strict (y m d y' m' d' : Nat) (hy : 1 ≤ y) (hm1 : 1 ≤ m) (hm2 : m ≤ 12)
    (hd1 : 1 ≤ d) (hd2 : d ≤ daysInMonth y m) (hm'1 : 1 ≤ m') (hm'2 : m' ≤ 12)
    (hd'1 : 1 ≤ d')
    (h : 12 * y + m < 12 * y' + m' ∨ (y = y' ∧ m = m' ∧ d < d')) :
    dayIdx y m d < dayIdx y' m' d' := by
  rcases h with h | ⟨h1, h2, h3⟩
  · have := dayIdx_lt_first (12 * y' + m') y m d y' m' rfl hy hm1 hm2 hd1 hd2 hm'1 hm'2 h
    have hmono : dayIdx y' m' 1 ≤ dayIdx y' m' d' := by
      unfold dayIdx
      omega
    omega
  · subst h1
    subst h2
    unfold dayIdx
    omega

theorem dayIdx_inj (y m d y' m' d' : Nat) (hy : 1 ≤ y) (hm1 : 1 ≤ m) (hm2 : m ≤ 12)
    (hd1 : 1 ≤ d) (hd2 : d ≤ daysInMonth y m) (hy' : 1 ≤ y') (hm'1 : 1 ≤ m')
    (hm'2 : m' ≤ 12) (hd'1 : 1 ≤ d') (hd'2 : d' ≤ daysInMonth y' m')
    (h : dayIdx y m d = dayIdx y' m' d') : y = y' ∧ m = m' ∧ d = d' := by
  by_cases hc : 12 * y + m = 12 * y' + m'
  · have hym : y = y' ∧ m = m' := by omega
    obtain ⟨e1, e2⟩ := hym
    subst e1
    subst e2
    refine ⟨rfl, rfl, ?_⟩
    by_contra hne
    rcases Nat.lt_or_ge d d' with hlt | hge
    · have := dayIdx_strict y m d y m d' hy hm1 hm2 hd1 hd2 hm1 hm2 hd'1 (Or.inr ⟨rfl, rfl, hlt⟩)
      omega
    · have hlt : d' < d := by omega
      have := dayIdx_strict y m d' y m d hy hm1 hm2 hd'1 hd'2 hm1 hm2 hd1 (Or.inr ⟨rfl, rfl, hlt⟩)
      omega
  · rcases Nat.lt_or_ge (12 * y + m) (12 * y' + m') with hlt | hge
    · have := dayIdx_strict y m d y' m' d' hy hm1 hm2 hd1 hd2 hm'1 hm'2 hd'1 (Or.inl hlt)
      omega
    · have hlt : 12 * y' + m' < 12 * y + m := by omega
      have := dayIdx_strict y' m' d' y m d hy' hm'1 hm'2 hd'1 hd'2 hm1 hm2 hd1 (Or.inl hlt)
      omega

theorem DT.toAbs_inj (s t : DT) (hs : s.Valid) (ht : t.Valid)
    (h : s.toAbs = t.toAbs) : s = t := by
  obtain ⟨sy, smo, sdy, ssod⟩ := s
  obtain ⟨ty, tmo, tdy, tsod⟩ := t
  obtain ⟨a1, a2, a3, a4, a5, a6⟩ := hs
  obtain ⟨b1, b2, b3, b4, b5, b6⟩ := ht
  simp only at a1 a2 a3 a4 a5 a6 b1 b2 b3 b4 b5 b6
  unfold DT.toAbs DT.dateIdx at h
  simp only at h
  have hidx : dayIdx sy smo sdy = dayIdx ty tmo tdy ∧ ssod = tsod := by omega
  obtain ⟨hd, hsod⟩ := hidx
  have := dayIdx_inj sy smo sdy ty tmo tdy a1 a2 a3 a4 a5 b1 b2 b3 b4 b5 hd
  simp_all

theorem monthAdd_valid (k : Nat) (t : DT) (ht : t.Valid) : (monthAdd k t).Valid := by
  obtain ⟨y, mo, dy, sod⟩ := t
  obtain ⟨h1, h2, h3, h4, h5, h6⟩ := ht
  simp only at h1 h2 h3 h4 h5 h6
  unfold monthAdd DT.Valid
  simp only
  have hp := daysInMonth_pos (y + (mo - 1 + k) / 12) ((mo - 1 + k) % 12 + 1)
  refine ⟨by omega, by omega, by omega, by omega, Nat.min_le_right _ _, h6⟩

theorem monthAdd_sod (k : Nat) (t : DT) : (monthAdd k t).sod = t.sod := rfl

theorem monthAdd_counter (k : Nat) (t : DT) (h2 : 1 ≤ t.mo) :
    12 * (monthAdd k t).y + (monthAdd k t).mo = 12 * t.y + t.mo + k := by
  obtain ⟨y, mo, dy, sod⟩ := t
  simp only at h2
  unfold monthAdd
  simp only
  omega

theorem monthAdd_dateIdx_lt (k : Nat) (t : DT) (ht : t.Valid) (hk : 1 ≤ k) :
    t.dateIdx < (monthAdd k t).dateIdx := by
  have hv := monthAdd_valid k t ht
  have hc := monthAdd_counter k t ht.2.1
  obtain ⟨h1, h2, h3, h4, h5, h6⟩ := ht
  obtain ⟨g1, g2, g3, g4, g5, g6⟩ := hv
  unfold DT.dateIdx
  exact dayIdx_strict t.y t.mo t.dy (monthAdd k t).y (monthAdd k t).mo (monthAdd k t).dy
    h1 h2 h3 h4 h5 g2 g3 g4 (Or.inl (by omega))

theorem yearAdd_valid (k : Nat) (t : DT) (ht : t.Valid) : (yearAdd k t).Valid := by
  obtain ⟨y, mo, dy, sod⟩ := t
  obtain ⟨h1, h2, h3, h4, h5, h6⟩ := ht
  simp only at h1 h2 h3 h4 h5 h6
  unfold yearAdd DT.Valid
  simp only
  have hp := daysInMonth_pos (y + k) mo
  refine ⟨by omega, h2, h3, by omega, Nat.min_le_right _ _, h6⟩

theorem yearAdd_sod (k : Nat) (t : DT) : (yearAdd k t).sod = t.sod := rfl

theorem yearAdd_dateIdx_lt (k : Nat) (t : DT) (ht : t.Valid) (hk : 1 ≤ k) :
    t.dateIdx < (yearAdd k t).dateIdx := by
  have hv := yearAdd_valid k t ht
  obtain ⟨h1, h2, h3, h4, h5, h6⟩ := ht
  obtain ⟨g1, g2, g3, g4, g5, g6⟩ := hv
  unfold DT.dateIdx
  refine dayIdx_strict t.y t.mo t.dy (yearAdd k t).y (yearAdd k t).mo (yearAdd k t).dy
    h1 h2 h3 h4 h5 g2 g3 g4 (Or.inl ?_)
  have : (yearAdd k t).y = t.y + k ∧ (yearAdd k t).mo = t.mo := by
    unfold yearAdd
    exact ⟨rfl, rfl⟩
  omega

theorem addSecs_spec (n : Int) (t : DT) (ht : t.Valid) (hn : 0 ≤ n) :
    (addSecs n t).Valid ∧ (addSecs n t).toAbs = t.toAbs + n := by
  obtain ⟨y, mo, dy, sod⟩ := t
  obtain ⟨h1, h2, h3, h4, h5, h6⟩ := ht
  simp only at h1 h2 h3 h4 h5 h6
  unfold addSecs
  simp only
  have hde : 86400 * ((n + (sod : Int)).ediv 86400) + (n + (sod : Int)).emod 86400
      = n + (sod : Int) := Int.ediv_add_emod _ _
  have hm0 : 0 ≤ (n + (sod : Int)).emod 86400 := Int.emod_nonneg _ (by norm_num)
  have hm1 : (n + (sod : Int)).emod 86400 < 86400 :=
    Int.emod_lt_of_pos _ (by norm_num)
  have hq : 0 ≤ (n + (sod : Int)).ediv 86400 := by omega
  rw [if_pos hq]
  have hvr : (⟨y, mo, dy, ((n + (sod : Int)).emod 86400).toNat⟩ : DT).Valid :=
    ⟨h1, h2, h3, h4, h5, by simp only; omega⟩
  refine ⟨addDays_valid _ _ hvr, ?_⟩
  rw [addDays_toAbs _ _ hvr]
  unfold DT.toAbs DT.dateIdx
  simp only
  omega

theorem addSecs_valid (n : Int) (t : DT) (ht : t.Valid) (hn : 0 ≤ n) :
    (addSecs n t).Valid := (addSecs_spec n t ht hn).1

theorem addSecs_toAbs (n : Int) (t : DT) (ht : t.Valid) (hn : 0 ≤ n) :
    (addSecs n t).toAbs = t.toAbs + n := (addSecs_spec n t ht hn).2

theorem addDays_weekday (k : Nat) (t : DT) (ht : t.Valid) :
    (addDays k t).weekday = (((t.dateIdx + k) % 7 : Nat) : Int) := by
  unfold DT.weekday
  rw [addDays_dateIdx k t ht]

/-! ## Data model (`src/models/event.py`) -/

inductive RepeatTypeEnum
  | none
  | daily
  | weekly
  | monthly
  | yearly
  | custom
  deriving DecidableEq, Repr

inductive RepeatEndTypeEnum
  | never
  | date
  | count
  deriving DecidableEq, Repr

inductive ExceptionTypeEnum
  | deleted
  | modified
  deriving DecidableEq, Repr

/-- Python enum name lookup `RepeatTypeEnum[s]` (names equal values here). -/
def repeatTypeByName (s : String) : Option RepeatTypeEnum :=
  if s = "none" then some RepeatTypeEnum.none
  else if s = "daily" then some RepeatTypeEnum.daily
  else if s = "weekly" then some RepeatTypeEnum.weekly
  else if s = "monthly" then some RepeatTypeEnum.monthly
  else if s = "yearly" then some RepeatTypeEnum.yearly
  else if s = "custom" then some RepeatTypeEnum.custom
  else Option.none

def repeatEndTypeByName (s : String) : Option RepeatEndTypeEnum :=
  if s = "never" then some RepeatEndTypeEnum.never
  else if s = "date" then some RepeatEndTypeEnum.date
  else if s = "count" then some RepeatEndTypeEnum.count
  else Option.none

/-- The `events` table row.  `created_at`/`updated_at` are opaque here. -/
structure Event where
  id : Nat
  user_id : Nat
  parent_event_id : Option Nat := Option.none
  title : String
  description : Option String := Option.none
  start_time : DT
  end_time : DT
  all_day : Bool := false
  repeat_type : RepeatTypeEnum
  repeat_interval : Nat := 1
  repeat_days : Option String := Option.none
  repeat_until : Option DT := Option.none
  repeat_end_type : RepeatEndTypeEnum
  repeat_count : Option Int := Option.none
  created_by : Nat
  created_at : Nat := 0
  updated_at : Nat := 0
  deriving DecidableEq, Repr

/-- The `event_exceptions` table row; `exception_date` is a calendar day
(`DT.dateIdx` value). -/
structure EventException where
  event_id : Nat
  exception_date : Nat
  exception_type : ExceptionTypeEnum
  modified_event_id : Option Nat
  deriving DecidableEq, Repr

/-- Python truthiness of an optional string (`None` and `""` are falsy). -/
def optStrTruthy : Option String → Bool
  | some s => !(s == "")
  | Option.none => false

/-- Python truthiness of an optional integer (`None` and `0` are falsy). -/
def optIntTruthy : Option Int → Bool
  | some n => !(n == 0)
  | Option.none => false

/-! ## Timezone Normalizer (`src/utils/timezone_utils.py`) -/

/-- `convert_user_to_utc_timezone`: add the offset (in minutes). -/
def convUserToUtc (t : DT) (tz : Option Int) : DT :=
  match tz with
  | some m => addSecs (60 * m) t
  | Option.none => t

/-- `convert_utc_to_user_timezone`: subtract the offset (in minutes). -/
def convUtcToUser (t : DT) (tz : Option Int) : DT :=
  match tz with
  | some m => addSecs (-(60 * m)) t
  | Option.none => t

/-! ## Response dictionaries (`src/routers/event.py`, lines 30–78) -/

/-- The dict shape built by `event_to_dict_with_timezone` and by the
generator for repeat instances (an `EventResponse` payload). -/
structure Inst where
  id : Nat
  user_id : Nat
  parent_event_id : Option Nat
  title : String
  description : Option String
  start_time : DT
  end_time : DT
  all_day : Bool
  repeat_type : RepeatTypeEnum
  repeat_interval : Nat
  repeat_days : Option String
  repeat_until : Option DT
  repeat_end_type : RepeatEndTypeEnum
  repeat_count : Option Int
  created_by : Nat
  created_at : Nat
  updated_at : Nat
  is_repeat_instance : Option Bool
  original_start : Option DT
  deriving DecidableEq, Repr

/-- `apply_timezone_to_event` (lines 30–54). -/
def apply_timezone_to_event (d : Inst) (tz : Option Int) : Inst :=
  match tz with
  | Option.none => d
  | some _ =>
      { d with
        start_time := convUtcToUser d.start_time tz
        end_time := convUtcToUser d.end_time tz
        repeat_until := d.repeat_until.map (fun u => convUtcToUser u tz)
        original_start := d.original_start.map (fun u => convUtcToUser u tz) }

/-- `event_to_dict_with_timezone` (lines 57–78). -/
def event_to_dict_with_timezone (e : Event) (tz : Option Int) : Inst :=
  apply_timezone_to_event
    { id := e.id, user_id := e.user_id, parent_event_id := e.parent_event_id,
      title := e.title, description := e.description,
      start_time := e.start_time, end_time := e.end_time, all_day := e.all_day,
      repeat_type := e.repeat_type, repeat_interval := e.repeat_interval,
      repeat_days := e.repeat_days, repeat_until := e.repeat_until,
      repeat_end_type := e.repeat_end_type, repeat_count := e.repeat_count,
      created_by := e.created_by, created_at := e.created_at,
      updated_at := e.updated_at,
      is_repeat_instance := Option.none, original_start := Option.none } tz

/-! ## Exception Overlay helpers (`src/routers/event.py`, lines 81–104) -/

/-- `should_include_occurrence` (lines 81–87). -/
def should_include_occurrence (occurrence_date : DT)
    (exceptions : List EventException) : Bool :=
  !(exceptions.any fun exc =>
    exc.exception_date == occurrence_date.dateIdx &&
      exc.exception_type == ExceptionTypeEnum.deleted)

/-- `get_modified_event_for_occurrence` (lines 90–104): the first matching
`modified` exception with a truthy `modified_event_id` is looked up in the
preloaded cache (a cache miss yields `None`). -/
def get_modified_event_for_occurrence (occurrence_date : DT)
    (exceptions : List EventException) (cache : Nat → Option Event) :
    Option Event :=
  match exceptions.find? (fun exc =>
    exc.exception_date == occurrence_date.dateIdx &&
      exc.exception_type == ExceptionTypeEnum.modified &&
      (match exc.modified_event_id with
        | some i => !(i == 0)
        | Option.none => false)) with
  | some exc => (exc.modified_event_id.getD 0) |> cache
  | Option.none => Option.none

/-! ## Occurrence Generator (`src/routers/event.py`, lines 178–395) -/

/-- Parse `event.repeat_days` as the generator does
(`set(int(d) for d in event.repeat_days.split(','))`, line 207); `int`
failures on malformed input (which raise in Python) are dropped here. -/
def allowedWeekdays (s : String) : List Int :=
  (s.splitOn ",").filterMap String.toInt?

/-- Per-occurrence exception handling, as inlined identically at
lines 260–299 and 340–375 of the source: drop a deleted occurrence,
substitute a modified one (tagging it as a repeat instance with the raw
base start), otherwise emit the computed instance dict. -/
def overlayOccurrence (e : Event) (instance_start instance_end : DT)
    (tz : Option Int) (exceptions : List EventException)
    (cache : Nat → Option Event) : Option Inst :=
  if should_include_occurrence instance_start exceptions then
    match get_modified_event_for_occurrence instance_start exceptions cache with
    | some me =>
        let d := event_to_dict_with_timezone me tz
        some { d with is_repeat_instance := some true,
                      original_start := some e.start_time }
    | Option.none =>
        some (apply_timezone_to_event
          { id := e.id, user_id := e.user_id, parent_event_id := e.parent_event_id,
            title := e.title, description := e.description,
            start_time := instance_start, end_time := instance_end,
            all_day := e.all_day, repeat_type := e.repeat_type,
            repeat_interval := e.repeat_interval, repeat_days := e.repeat_days,
            repeat_until := e.repeat_until, repeat_end_type := e.repeat_end_type,
            repeat_count := e.repeat_count, created_by := e.created_by,
            created_at := e.created_at, updated_at := e.updated_at,
            is_repeat_instance := some true,
            original_start := some e.start_time } tz)
  else Option.none

/-- The inner `for day_offset in range(7)` loop of the weekly-with-days
branch (lines 233–299), for one week cycle. -/
def weekInstances (e : Event) (allowed : List Int) (duration : Int)
    (start_date end_date : DT) (tz : Option Int)
    (exceptions : List EventException) (cache : Nat → Option Event)
    (week_number : Nat) : List Inst :=
  (List.range 7).filterMap fun day_offset =>
    let check_date := addDays day_offset (addDays (7 * week_number) e.start_time)
    if check_date.weekday ∈ allowed ∧ e.start_time.toAbs ≤ check_date.toAbs then
      let instance_start : DT :=
        ⟨check_date.y, check_date.mo, check_date.dy, e.start_time.sod⟩
      let instance_end := addSecs duration instance_start
      if e.repeat_end_type = RepeatEndTypeEnum.date ∧ e.repeat_until.isSome ∧
          (e.repeat_until.getD instance_start).toAbs < instance_start.toAbs then
        Option.none
      else if instance_start.toAbs = e.start_time.toAbs then
        Option.none
      else if start_date.toAbs ≤ instance_end.toAbs ∧
          instance_start.toAbs ≤ end_date.toAbs then
        overlayOccurrence e instance_start instance_end tz exceptions cache
      else Option.none
    else Option.none

/-- Was the week-cycle limit reached
(`max_week_cycles is not None and week_cycle_count >= max_week_cycles`)? -/
def cycleLimitReached (maxWeekCycles : Option Int) (week_cycle_count : Nat) : Bool :=
  match maxWeekCycles with
  | some c => c ≤ (week_cycle_count : Int)
  | Option.none => false

/-- The outer `while True` loop of the weekly-with-days branch
(lines 213–302).  The source loop terminates because `week_start` grows by
7 days per iteration and the loop breaks once it passes `repeat_end`; the
`fuel` parameter is instantiated with an upper bound on that iteration
count.  With `repeat_interval = 0` the source raises `ZeroDivisionError`
(`week_number % 0`); here `n % 0 = n` instead, so theorems assume
`1 ≤ repeat_interval`. -/
def weeklyGo (e : Event) (allowed : List Int) (duration : Int) (repeat_end : DT)
    (maxWeekCycles : Option Int) (start_date end_date : DT) (tz : Option Int)
    (exceptions : List EventException) (cache : Nat → Option Event) :
    Nat → Nat → Nat → List Inst
  | 0, _, _ => []
  | fuel + 1, week_number, week_cycle_count =>
    let week_start := addDays (7 * week_number) e.start_time
    if repeat_end.toAbs < week_start.toAbs then []
    else if week_number % e.repeat_interval = 0 then
      if cycleLimitReached maxWeekCycles week_cycle_count then []
      else
        weekInstances e allowed duration start_date end_date tz exceptions cache
            week_number ++
          weeklyGo e allowed duration repeat_end maxWeekCycles start_date end_date
            tz exceptions cache fuel (week_number + 1) (week_cycle_count + 1)
    else
      weeklyGo e allowed duration repeat_end maxWeekCycles start_date end_date
        tz exceptions cache fuel (week_number + 1) week_cycle_count

/-- One interval step of the daily/weekly/monthly/yearly chain
(lines 312–325 and 377–393); `none` models the final `else: break` (and,
for the initial positioning, the fall-through that leaves `current_date`
unchanged). -/
def stepOccurrence (e : Event) (t : DT) : Option DT :=
  match e.repeat_type with
  | RepeatTypeEnum.daily => some (addDays e.repeat_interval t)
  | RepeatTypeEnum.weekly => some (addDays (7 * e.repeat_interval) t)
  | RepeatTypeEnum.monthly => some (monthAdd e.repeat_interval t)
  | RepeatTypeEnum.yearly => some (yearAdd e.repeat_interval t)
  | _ => Option.none

/-- The `while current_date <= min(repeat_end, end_date)` loop of the
non-weekly-with-days branch (lines 327–393).  The source loop terminates
whenever each step advances `current_date` (interval ≥ 1) or the count
limit applies; `fuel` is instantiated with an upper bound on that
iteration count. -/
def mainGo (e : Event) (duration : Int) (repeat_end : DT)
    (start_date end_date : DT) (tz : Option Int)
    (exceptions : List EventException) (cache : Nat → Option Event) :
    Nat → Nat → DT → List Inst
  | 0, _, _ => []
  | fuel + 1, occurrence_count, current_date =>
    if current_date.toAbs ≤ min repeat_end.toAbs end_date.toAbs then
      if e.repeat_end_type = RepeatEndTypeEnum.count ∧ optIntTruthy e.repeat_count ∧
          e.repeat_count.getD 0 ≤ (occurrence_count : Int) then []
      else
        let instance_end := addSecs duration current_date
        let emitted :=
          if start_date.toAbs ≤ instance_end.toAbs ∧
              current_date.toAbs ≤ end_date.toAbs then
            (overlayOccurrence e current_date instance_end tz exceptions cache).toList
          else []
        match stepOccurrence e current_date with
        | some next =>
            emitted ++ mainGo e duration repeat_end start_date end_date tz
              exceptions cache fuel (occurrence_count + 1) next
        | Option.none => emitted
    else []

/-- Fuel bound for `weeklyGo`: weeks until `week_start` passes `repeat_end`. -/
def weeklyFuel (e : Event) (repeat_end : DT) : Nat :=
  ((repeat_end.toAbs - e.start_time.toAbs).ediv (7 * 86400)).toNat + 2

/-- Fuel bound for `mainGo`: days until `min(repeat_end, end_date)` plus the
occurrence-count budget. -/
def mainFuel (e : Event) (repeat_end end_date : DT) : Nat :=
  ((min repeat_end.toAbs end_date.toAbs - e.start_time.toAbs).ediv 86400).toNat +
    (e.repeat_count.getD 0).toNat + 2

/-- `generate_repeat_instances` (lines 178–395). -/
def generate_repeat_instances (e : Event) (start_date end_date : DT)
    (tz : Option Int) (exceptions : List EventException)
    (cache : Nat → Option Event) : List Inst :=
  if e.repeat_type = RepeatTypeEnum.none then []
  else
    let duration := e.end_time.toAbs - e.start_time.toAbs
    let repeat_end :=
      if e.repeat_end_type = RepeatEndTypeEnum.date ∧ e.repeat_until.isSome then
        e.repeat_until.getD end_date
      else if e.repeat_end_type = RepeatEndTypeEnum.count ∧
          optIntTruthy e.repeat_count then end_date
      else end_date
    if e.repeat_type = RepeatTypeEnum.weekly ∧ optStrTruthy e.repeat_days then
      let allowed := allowedWeekdays (e.repeat_days.getD "")
      let maxWeekCycles :=
        if e.repeat_end_type = RepeatEndTypeEnum.count then e.repeat_count
        else Option.none
      weeklyGo e allowed duration repeat_end maxWeekCycles start_date end_date tz
        exceptions cache (weeklyFuel e repeat_end) 0 0
    else
      mainGo e duration repeat_end start_date end_date tz exceptions cache
        (mainFuel e repeat_end end_date) 0
        ((stepOccurrence e e.start_time).getD e.start_time)

/-! ## `calculate_previous_occurrence` (`src/routers/event.py`, lines 107–175) -/

/-- The `while current < target: previous = current; current += step` loop
shared by the daily / plain-weekly / monthly / yearly branches. -/
def prevStepGo (step : DT → DT) (target : DT) : Nat → DT → DT → DT
  | 0, _, previous => previous
  | fuel + 1, current, previous =>
    if current.toAbs < target.toAbs then
      prevStepGo step target fuel (step current) current
    else previous

/-- The inner `for day_offset in range(7)` scan of the weekly-with-days
branch (lines 132–146). -/
def prevWeekScan (e : Event) (allowed : List Int) (target : DT)
    (week_number : Nat) (previous : DT) : DT :=
  (List.range 7).foldl
    (fun prev day_offset =>
      let check_date := addDays day_offset (addDays (7 * week_number) e.start_time)
      if check_date.weekday ∈ allowed ∧ e.start_time.toAbs ≤ check_date.toAbs ∧
          check_date.toAbs < target.toAbs then
        let occurrence : DT :=
          ⟨check_date.y, check_date.mo, check_date.dy, e.start_time.sod⟩
        if occurrence.toAbs < target.toAbs then occurrence else prev
      else prev)
    previous

/-- The outer week loop of the weekly-with-days branch (lines 126–148). -/
def prevWeeklyGo (e : Event) (allowed : List Int) (target : DT) :
    Nat → Nat → DT → DT
  | 0, _, previous => previous
  | fuel + 1, week_number, previous =>
    let week_start := addDays (7 * week_number) e.start_time
    if target.toAbs ≤ week_start.toAbs then previous
    else
      let previous2 :=
        if week_number % e.repeat_interval = 0 then
          prevWeekScan e allowed target week_number previous
        else previous
      prevWeeklyGo e allowed target fuel (week_number + 1) previous2

/-- Fuel bound for the stepping loops: days until `target`. -/
def prevFuel (e : Event) (target : DT) : Nat :=
  ((target.toAbs - e.start_time.toAbs).ediv 86400).toNat + 2

/-- Fuel bound for the weekly scan: weeks until `target`. -/
def prevWeeklyFuel (e : Event) (target : DT) : Nat :=
  ((target.toAbs - e.start_time.toAbs).ediv (7 * 86400)).toNat + 2

/-- `calculate_previous_occurrence` (lines 107–175): the last occurrence of
the series strictly before `target` (falling back to `start_time`). -/
def calculate_previous_occurrence (e : Event) (target : DT) : DT :=
  match e.repeat_type with
  | RepeatTypeEnum.daily =>
      prevStepGo (addDays e.repeat_interval) target (prevFuel e target)
        e.start_time e.start_time
  | RepeatTypeEnum.weekly =>
      if optStrTruthy e.repeat_days then
        prevWeeklyGo e (allowedWeekdays (e.repeat_days.getD "")) target
          (prevWeeklyFuel e target) 0 e.start_time
      else
        prevStepGo (addDays (7 * e.repeat_interval)) target (prevFuel e target)
          e.start_time e.start_time
  | RepeatTypeEnum.monthly =>
      prevStepGo (monthAdd e.repeat_interval) target (prevFuel e target)
        e.start_time e.start_time
  | RepeatTypeEnum.yearly =>
      prevStepGo (yearAdd e.repeat_interval) target (prevFuel e target)
        e.start_time e.start_time
  | _ => e.start_time

/-! ## Request validation and the Series Editor
(`src/routers/event.py`, lines 398–914) -/

inductive ApiError
  | badRequest (detail : String)
  | forbidden (detail : String)
  | notFound (detail : String)
  deriving DecidableEq, Repr

/-- `validate_repeat_days` (lines 398–411): parse with strip/skip-empty and
require every entry in 0..6; a Python `int()` failure means rejection. -/
def validate_repeat_days_ok (repeat_days : Option String) : Bool :=
  if optStrTruthy repeat_days then
    match (((repeat_days.getD "").splitOn ",").map String.trim
        |>.filter (fun p => !(p == ""))).mapM String.toInt? with
    | some ds => ds.all fun d => decide (0 ≤ d) && decide (d ≤ 6)
    | Option.none => false
  else true

/-- The fields `create_event` reads off its request payload. -/
structure EventCreateData where
  user_id : Nat
  title : String
  description : Option String := Option.none
  start_time : DT
  end_time : DT
  all_day : Bool := false
  repeat_type : RepeatTypeEnum := RepeatTypeEnum.none
  repeat_interval : Nat := 1
  repeat_days : Option String := Option.none
  repeat_until : Option DT := Option.none
  repeat_end_type : RepeatEndTypeEnum := RepeatEndTypeEnum.never
  repeat_count : Option Int := Option.none

/-- `create_event` (lines 414–495), as a pure function of the request, the
timezone header, and the authorization context; on success the committed
`Event` row is returned and nothing is persisted on any error path. -/
def create_event (data : EventCreateData) (tz : Option Int) (userExists : Bool)
    (role_id current_user_id new_id : Nat) : Except ApiError Event :=
  if optStrTruthy data.repeat_days ∧ ¬ (validate_repeat_days_ok data.repeat_days) then
    Except.error (ApiError.badRequest "Invalid repeat_days format")
  else
    let start_time_utc := convUserToUtc data.start_time tz
    let end_time_utc := convUserToUtc data.end_time tz
    if end_time_utc.toAbs ≤ start_time_utc.toAbs then
      Except.error (ApiError.badRequest "End time must be after start time")
    else
      let repeat_until_utc :=
        if data.repeat_end_type = RepeatEndTypeEnum.date ∧ data.repeat_until.isSome
        then some (convUserToUtc (data.repeat_until.getD data.start_time) tz)
        else Option.none
      if (match repeat_until_utc with
          | some u => decide (u.toAbs ≤ start_time_utc.toAbs)
          | Option.none => false) = true then
        Except.error (ApiError.badRequest "Repeat until date must be after start time")
      else if data.repeat_end_type = RepeatEndTypeEnum.count ∧
          ¬ (optIntTruthy data.repeat_count = true) then
        Except.error (ApiError.badRequest "Repeat count is required when end type is count")
      else if ¬ userExists then
        Except.error (ApiError.notFound "User not found")
      else if role_id ≠ 1 ∧ data.user_id ≠ current_user_id then
        Except.error (ApiError.forbidden "You can only create events for yourself")
      else
        Except.ok
          { id := new_id, user_id := data.user_id, title := data.title,
            description := data.description, start_time := start_time_utc,
            end_time := end_time_utc, all_day := data.all_day,
            repeat_type := data.repeat_type,
            repeat_interval := data.repeat_interval,
            repeat_days := data.repeat_days, repeat_until := repeat_until_utc,
            repeat_end_type := data.repeat_end_type,
            repeat_count := data.repeat_count, created_by := current_user_id }

/-- The update request body after the handler pops `scope`,
`occurrence_date` and the non-updatable keys (lines 639–651); `some`
means the key was present. -/
structure UpdateBody where
  scope : Option String := Option.none
  occurrence_date : Option DT := Option.none
  title : Option String := Option.none
  description : Option (Option String) := Option.none
  start_time : Option DT := Option.none
  end_time : Option DT := Option.none
  all_day : Option Bool := Option.none
  repeat_type : Option String := Option.none
  repeat_interval : Option Nat := Option.none
  repeat_days : Option (Option String) := Option.none
  repeat_until : Option DT := Option.none
  repeat_end_type : Option String := Option.none
  repeat_count : Option (Option Int) := Option.none

/-- `if not request_body:` after the pops (line 653). -/
def hasUpdateFields (b : UpdateBody) : Bool :=
  b.title.isSome || b.description.isSome || b.start_time.isSome ||
    b.end_time.isSome || b.all_day.isSome || b.repeat_type.isSome ||
    b.repeat_interval.isSome || b.repeat_days.isSome || b.repeat_until.isSome ||
    b.repeat_end_type.isSome || b.repeat_count.isSome

/-- `setattr(event, field, value)` over every remaining body field (lines
710–711); the enum strings were validated just before, so the validated
parse is applied. -/
def applyUpdateFields (e : Event) (b : UpdateBody) (tz : Option Int) : Event :=
  { e with
    title := b.title.getD e.title
    description := b.description.getD e.description
    start_time := (b.start_time.map (fun t => convUserToUtc t tz)).getD e.start_time
    end_time := (b.end_time.map (fun t => convUserToUtc t tz)).getD e.end_time
    all_day := b.all_day.getD e.all_day
    repeat_type := (b.repeat_type.bind repeatTypeByName).getD e.repeat_type
    repeat_interval := b.repeat_interval.getD e.repeat_interval
    repeat_days := b.repeat_days.getD e.repeat_days
    repeat_until := (b.repeat_until.map
      (fun t => (some (convUserToUtc t tz) : Option DT))).getD e.repeat_until
    repeat_end_type := (b.repeat_end_type.bind repeatEndTypeByName).getD e.repeat_end_type
    repeat_count := b.repeat_count.getD e.repeat_count }

/-- What one `update_event` request commits: the (possibly patched) base
row, an optional newly inserted row, an optional new exception row, and
the response payload. -/
structure UpdateEffect where
  base : Event
  created : Option Event
  exceptionAdded : Option EventException
  response : Inst
  deriving DecidableEq, Repr

/-- `update_event` (lines 614–826) for an existing event `e`, as a pure
function of the parsed body, timezone header and caller identity;
`new_id` is the id the database would assign to an inserted row. -/
def update_event (e : Event) (b : UpdateBody) (tz : Option Int)
    (role_id current_user_id new_id : Nat) : Except ApiError UpdateEffect :=
  if role_id ≠ 1 ∧ e.user_id ≠ current_user_id then
    Except.error (ApiError.forbidden "You can only update your own events")
  else
    let scope := b.scope.getD "all"
    if ¬ (hasUpdateFields b = true) then
      Except.ok { base := e, created := Option.none, exceptionAdded := Option.none,
                  response := event_to_dict_with_timezone e tz }
    else if (match b.repeat_days with
        | some d => optStrTruthy d && !(validate_repeat_days_ok d)
        | Option.none => false) = true then
      Except.error (ApiError.badRequest "Invalid repeat_days format")
    else if (match b.repeat_type with
        | some s => (repeatTypeByName s).isNone
        | Option.none => false) = true then
      Except.error (ApiError.badRequest "Invalid repeat_type")
    else if (match b.repeat_end_type with
        | some s => (repeatEndTypeByName s).isNone
        | Option.none => false) = true then
      Except.error (ApiError.badRequest "Invalid repeat_end_type")
    else if (b.start_time.isSome ∨ b.end_time.isSome) ∧
        ((b.end_time.map (fun t => convUserToUtc t tz)).getD e.end_time).toAbs ≤
          ((b.start_time.map (fun t => convUserToUtc t tz)).getD e.start_time).toAbs then
      Except.error (ApiError.badRequest "End time must be after start time")
    else if e.repeat_type = RepeatTypeEnum.none ∨ scope = "all" then
      let e2 := applyUpdateFields e b tz
      Except.ok { base := e2, created := Option.none, exceptionAdded := Option.none,
                  response := event_to_dict_with_timezone e2 tz }
    else if scope = "this" then
      match b.occurrence_date with
      | Option.none =>
          Except.error (ApiError.badRequest "occurrence_date is required for this scope")
      | some od =>
          let occurrence_date_utc := convUserToUtc od tz
          let duration := e.end_time.toAbs - e.start_time.toAbs
          let new_start :=
            (b.start_time.map (fun t => convUserToUtc t tz)).getD occurrence_date_utc
          let new_end :=
            (b.end_time.map (fun t => convUserToUtc t tz)).getD
              (addSecs duration occurrence_date_utc)
          let new_event : Event :=
            { id := new_id, user_id := e.user_id, title := b.title.getD e.title,
              description := b.description.getD e.description,
              start_time := new_start, end_time := new_end,
              all_day := b.all_day.getD e.all_day,
              repeat_type := RepeatTypeEnum.none, repeat_interval := 1,
              repeat_days := Option.none, repeat_until := Option.none,
              repeat_end_type := RepeatEndTypeEnum.never,
              repeat_count := Option.none, created_by := current_user_id }
          let exc : EventException :=
            { event_id := e.id, exception_date := occurrence_date_utc.dateIdx,
              exception_type := ExceptionTypeEnum.modified,
              modified_event_id := some new_id }
          Except.ok { base := e, created := some new_event,
                      exceptionAdded := some exc,
                      response := event_to_dict_with_timezone new_event tz }
    else if scope = "future" then
      match b.occurrence_date with
      | Option.none =>
          Except.error (ApiError.badRequest "occurrence_date is required for future scope")
      | some od =>
          let occurrence_date_utc := convUserToUtc od tz
          let previous_occurrence := calculate_previous_occurrence e occurrence_date_utc
          let e2 := { e with repeat_until := some previous_occurrence,
                             repeat_end_type := RepeatEndTypeEnum.date }
          let duration := e.end_time.toAbs - e.start_time.toAbs
          let new_start :=
            (b.start_time.map (fun t => convUserToUtc t tz)).getD occurrence_date_utc
          let new_end :=
            (b.end_time.map (fun t => convUserToUtc t tz)).getD
              (addSecs duration occurrence_date_utc)
          let new_event : Event :=
            { id := new_id, parent_event_id := some e.id, user_id := e.user_id,
              title := b.title.getD e.title,
              description := b.description.getD e.description,
              start_time := new_start, end_time := new_end,
              all_day := b.all_day.getD e.all_day,
              repeat_type := (b.repeat_type.bind repeatTypeByName).getD e.repeat_type,
              repeat_interval := b.repeat_interval.getD e.repeat_interval,
              repeat_days := b.repeat_days.getD e.repeat_days,
              repeat_until := (b.repeat_until.map
                (fun t => (some (convUserToUtc t tz) : Option DT))).getD e.repeat_until,
              repeat_end_type := (b.repeat_end_type.bind repeatEndTypeByName).getD e.repeat_end_type,
              repeat_count := b.repeat_count.getD e.repeat_count,
              created_by := current_user_id }
          Except.ok { base := e2, created := some new_event,
                      exceptionAdded := Option.none,
                      response := event_to_dict_with_timezone new_event tz }
    else
      Except.ok { base := e, created := Option.none, exceptionAdded := Option.none,
                  response := event_to_dict_with_timezone e tz }

/-- What one `delete_event` request commits. -/
structure DeleteEffect where
  base : Event
  deletedBase : Bool
  exceptionAdded : Option EventException
  message : Option String
  deriving DecidableEq, Repr

/-- `delete_event` (lines 829–914) for an existing event `e`.  An
unrecognized scope on a repeating event falls through every branch and the
handler returns `None` with nothing committed. -/
def delete_event (e : Event) (scope : Option String) (occurrence_date : Option DT)
    (tz : Option Int) (role_id current_user_id : Nat) :
    Except ApiError DeleteEffect :=
  if role_id ≠ 1 ∧ e.user_id ≠ current_user_id then
    Except.error (ApiError.forbidden "You can only delete your own events")
  else
    let scopeVal := scope.getD "all"
    if e.repeat_type = RepeatTypeEnum.none ∨ scopeVal = "all" then
      Except.ok { base := e, deletedBase := true, exceptionAdded := Option.none,
                  message := some "Event deleted successfully" }
    else if scopeVal = "this" then
      match occurrence_date with
      | Option.none =>
          Except.error (ApiError.badRequest "occurrence_date is required for this scope")
      | some od =>
          let occurrence_date_utc := convUserToUtc od tz
          Except.ok
            { base := e, deletedBase := false,
              exceptionAdded := some (EventException.mk e.id
                occurrence_date_utc.dateIdx ExceptionTypeEnum.deleted Option.none),
              message := some "Event occurrence deleted successfully" }
    else if scopeVal = "future" then
      match occurrence_date with
      | Option.none =>
          Except.error (ApiError.badRequest "occurrence_date is required for future scope")
      | some od =>
          let occurrence_date_utc := convUserToUtc od tz
          let previous_occurrence := calculate_previous_occurrence e occurrence_date_utc
          Except.ok
            { base := { e with repeat_until := some previous_occurrence,
                               repeat_end_type := RepeatEndTypeEnum.date },
              deletedBase := false, exceptionAdded := Option.none,
              message := some "Future event occurrences deleted successfully" }
    else
      Except.ok { base := e, deletedBase := false, exceptionAdded := Option.none,
                  message := Option.none }

/-! ## Shared orbit machinery for the interval-stepping loops -/

/-- The occurrence chain obtained by iterating one interval step from a
base datetime. -/
def orbit (step : DT → DT) (t : DT) (k : Nat) : DT := step^[k] t

theorem orbit_succ (step : DT → DT) (t : DT) (k : Nat) :
    orbit step t (k + 1) = step (orbit step t k) :=
  Function.iterate_succ_apply' step k t

/-- A step function that preserves validity and seconds-of-day and strictly
advances the calendar day: every interval step of the engine (with
`repeat_interval ≥ 1`) is of this shape. -/
def GoodStep (step : DT → DT) : Prop :=
  ∀ x : DT, x.Valid → (step x).Valid ∧ (step x).sod = x.sod ∧
    x.dateIdx < (step x).dateIdx

theorem goodStep_addDays (i : Nat) (hi : 1 ≤ i) : GoodStep (addDays i) := by
  intro x hx
  refine ⟨addDays_valid i x hx, addDays_sod i x, ?_⟩
  rw [addDays_dateIdx i x hx]
  omega

theorem goodStep_monthAdd (i : Nat) (hi : 1 ≤ i) : GoodStep (monthAdd i) := by
  intro x hx
  exact ⟨monthAdd_valid i x hx, monthAdd_sod i x, monthAdd_dateIdx_lt i x hx hi⟩

theorem goodStep_yearAdd (i : Nat) (hi : 1 ≤ i) : GoodStep (yearAdd i) := by
  intro x hx
  exact ⟨yearAdd_valid i x hx, yearAdd_sod i x, yearAdd_dateIdx_lt i x hx hi⟩

theorem orbit_valid (step : DT → DT) (hs : GoodStep step) (t : DT) (ht : t.Valid) :
    ∀ k, (orbit step t k).Valid := by
  intro k
  induction k with
  | zero => exact ht
  | succ n ih =>
      rw [orbit_succ]
      exact (hs _ ih).1

theorem orbit_sod (step : DT → DT) (hs : GoodStep step) (t : DT) (ht : t.Valid) :
    ∀ k, (orbit step t k).sod = t.sod := by
  intro k
  induction k with
  | zero => rfl
  | succ n ih =>
      rw [orbit_succ]
      rw [(hs _ (orbit_valid step hs t ht n)).2.1]
      exact ih

theorem orbit_dateIdx_ge (step : DT → DT) (hs : GoodStep step) (t : DT)
    (ht : t.Valid) : ∀ k, t.dateIdx + k ≤ (orbit step t k).dateIdx := by
  intro k
  induction k with
  | zero => simp [orbit]
  | succ n ih =>
      rw [orbit_succ]
      have := (hs _ (orbit_valid step hs t ht n)).2.2
      omega

theorem orbit_toAbs_step (step : DT → DT) (hs : GoodStep step) (t : DT)
    (ht : t.Valid) (k : Nat) :
    (orbit step t k).toAbs + 86400 ≤ (orbit step t (k + 1)).toAbs := by
  have hvk := orbit_valid step hs t ht k
  obtain ⟨hv, hsod, hlt⟩ := hs _ hvk
  rw [orbit_succ]
  unfold DT.toAbs
  rw [hsod]
  have : (orbit step t k).dateIdx + 1 ≤ (step (orbit step t k)).dateIdx := hlt
  push_cast
  omega

theorem orbit_toAbs_mono (step : DT → DT) (hs : GoodStep step) (t : DT)
    (ht : t.Valid) {j k : Nat} (h : j ≤ k) :
    (orbit step t j).toAbs ≤ (orbit step t k).toAbs := by
  induction k with
  | zero =>
      have : j = 0 := by omega
      subst this
      omega
  | succ n ih =>
      by_cases hj : j = n + 1
      · subst hj
        omega
      · have hle : j ≤ n := by omega
        have := orbit_toAbs_step step hs t ht n
        have := ih hle
        omega

theorem orbit_toAbs_ge (step : DT → DT) (hs : GoodStep step) (t : DT)
    (ht : t.Valid) (k : Nat) :
    t.toAbs + 86400 * k ≤ (orbit step t k).toAbs := by
  induction k with
  | zero => simp [orbit]
  | succ n ih =>
      have := orbit_toAbs_step step hs t ht n
      omega

/-! ## Claim C6: unrecognized scope values -/

def c6Event : Event :=
  { id := 10, user_id := 5, title := "standup",
    start_time := ⟨2024, 1, 1, 32400⟩, end_time := ⟨2024, 1, 1, 34200⟩,
    repeat_type := RepeatTypeEnum.weekly, repeat_interval := 1,
    repeat_days := some "0,2,4",
    repeat_end_type := RepeatEndTypeEnum.never, created_by := 5 }

def c6Body : UpdateBody :=
  { scope := some "banana", title := some "renamed" }

/-- C6: the claim says an update or delete on a repeating event with a scope
outside {this, future, all} is rejected with a 400-class error.  The code
instead falls through every scope branch and silently succeeds: an update
with scope "banana" returns 200 with the event unchanged (the supplied
title is dropped) and commits nothing, and a delete with scope "banana"
returns `None` and commits nothing.  No error is raised and no state
changes, contradicting the required rejection. -/
theorem c6_unknown_scope_silently_accepted :
    update_event c6Event c6Body Option.none 1 5 99 =
      Except.ok { base := c6Event, created := Option.none,
                  exceptionAdded := Option.none,
                  response := event_to_dict_with_timezone c6Event Option.none } ∧
    delete_event c6Event (some "banana") Option.none Option.none 1 5 =
      Except.ok { base := c6Event, deletedBase := false,
                  exceptionAdded := Option.none, message := Option.none } := by
  constructor
  · rfl
  · rfl

/-! ## Claim C9: the `end_time > start_time` invariant -/

def c9BaseEvent : Event :=
  { id := 31, user_id := 7, title := "consult",
    start_time := ⟨2024, 1, 1, 36000⟩, end_time := ⟨2024, 1, 1, 39600⟩,
    repeat_type := RepeatTypeEnum.weekly, repeat_interval := 1,
    repeat_end_type := RepeatEndTypeEnum.never, created_by := 7 }

def c9Body : UpdateBody :=
  { scope := some "this", occurrence_date := some ⟨2024, 1, 20, 36000⟩,
    end_time := some ⟨2024, 1, 2, 39600⟩ }

def c9CreatedEvent : Event :=
  { id := 99, user_id := 7, title := "consult",
    start_time := ⟨2024, 1, 20, 36000⟩, end_time := ⟨2024, 1, 2, 39600⟩,
    repeat_type := RepeatTypeEnum.none, repeat_interval := 1,
    repeat_end_type := RepeatEndTypeEnum.never, created_by := 7 }

/-- C9: the claim says no code path can commit an Event with
`end_time ≤ start_time`.  The scope="this" update path validates the body
`end_time` against the *base* event times (which passes: Jan 2 11:00 is
after the base start Jan 1 10:00) but then builds the standalone occurrence
event from the client-chosen `occurrence_date` (Jan 20 10:00), committing a
row whose `end_time` (Jan 2 11:00) is 18 days before its `start_time`. -/
theorem c9_this_scope_commits_inverted_times :
    (update_event c9BaseEvent c9Body Option.none 1 7 99).toOption.bind
        UpdateEffect.created = some c9CreatedEvent ∧
      c9CreatedEvent.end_time.toAbs < c9CreatedEvent.start_time.toAbs := by
  constructor
  · rfl
  · decide

/-! ## Claim C8: creation-time validation -/

theorem convUserToUtc_none (t : DT) : convUserToUtc t Option.none = t := rfl

theorem convUtcToUser_none (t : DT) : convUtcToUser t Option.none = t := rfl

/-- The semantic conditions the creation validators are meant to enforce. -/
def createTimesOk (data : EventCreateData) : Prop :=
  data.start_time.toAbs < data.end_time.toAbs ∧
  (∀ u, data.repeat_end_type = RepeatEndTypeEnum.date → data.repeat_until = some u →
    data.start_time.toAbs < u.toAbs) ∧
  (data.repeat_end_type = RepeatEndTypeEnum.count → optIntTruthy data.repeat_count = true)

/-- C8 (amended): `create_event` rejects, before persisting anything,
end ≤ start (400), repeat_until ≤ start for end-type=date (400), and a
missing or zero repeat_count for end-type=count (400); with those checks
passing it returns 404 when the owner does not exist and 403 when a
non-admin creates for another user.  (The original claim also asserted
rejection of `repeat_interval < 1` and of negative `repeat_count`; the
code contains no such checks — see the counterexample.) -/
theorem c8_creation_validation (data : EventCreateData) (userExists : Bool)
    (role_id uid nid : Nat)
    (hdays : validate_repeat_days_ok data.repeat_days = true) :
    (data.end_time.toAbs ≤ data.start_time.toAbs →
      create_event data Option.none userExists role_id uid nid =
        Except.error (ApiError.badRequest "End time must be after start time")) ∧
    (∀ u, data.start_time.toAbs < data.end_time.toAbs →
      data.repeat_end_type = RepeatEndTypeEnum.date → data.repeat_until = some u →
      u.toAbs ≤ data.start_time.toAbs →
      create_event data Option.none userExists role_id uid nid =
        Except.error (ApiError.badRequest "Repeat until date must be after start time")) ∧
    (data.start_time.toAbs < data.end_time.toAbs →
      (∀ u, data.repeat_end_type = RepeatEndTypeEnum.date → data.repeat_until = some u →
        data.start_time.toAbs < u.toAbs) →
      data.repeat_end_type = RepeatEndTypeEnum.count →
      optIntTruthy data.repeat_count = false →
      create_event data Option.none userExists role_id uid nid =
        Except.error (ApiError.badRequest "Repeat count is required when end type is count")) ∧
    (createTimesOk data → userExists = false →
      create_event data Option.none userExists role_id uid nid =
        Except.error (ApiError.notFound "User not found")) ∧
    (createTimesOk data → userExists = true → role_id ≠ 1 → data.user_id ≠ uid →
      create_event data Option.none userExists role_id uid nid =
        Except.error (ApiError.forbidden "You can only create events for yourself")) := by
  have hnd : ¬ (optStrTruthy data.repeat_days = true ∧
      ¬ (validate_repeat_days_ok data.repeat_days = true)) := by
    intro h
    exact h.2 hdays
  refine ⟨?_, ?_, ?_, ?_, ?_⟩
  · intro hle
    unfold create_event
    rw [if_neg hnd, if_pos]
    simp only [convUserToUtc_none]
    exact hle
  · intro u hlt hdate huntil hule
    unfold create_event
    rw [if_neg hnd, if_neg (by simp only [convUserToUtc_none]; omega), if_pos]
    have : (if data.repeat_end_type = RepeatEndTypeEnum.date ∧ data.repeat_until.isSome
        then some (convUserToUtc (data.repeat_until.getD data.start_time) Option.none)
        else Option.none) = some u := by
      rw [if_pos ⟨hdate, by rw [huntil]; rfl⟩]
      rw [huntil]
      rfl
    rw [this]
    simp only [convUserToUtc_none]
    simpa using hule
  · intro hlt huntilok hcount hfalsy
    unfold create_event
    rw [if_neg hnd, if_neg (by simp only [convUserToUtc_none]; omega)]
    have huntil : (if data.repeat_end_type = RepeatEndTypeEnum.date ∧ data.repeat_until.isSome
        then some (convUserToUtc (data.repeat_until.getD data.start_time) Option.none)
        else Option.none) = Option.none := by
      rw [if_neg]
      intro ⟨h1, h2⟩
      rw [hcount] at h1
      cases h1
    rw [huntil]
    rw [if_neg (by simp)]
    rw [if_pos ⟨hcount, by rw [hfalsy]; simp⟩]
  · intro hok hne
    obtain ⟨h1, h2, h3⟩ := hok
    unfold create_event
    rw [if_neg hnd, if_neg (by simp only [convUserToUtc_none]; omega)]
    by_cases hd : data.repeat_end_type = RepeatEndTypeEnum.date ∧ data.repeat_until.isSome = true
    · obtain ⟨hd1, hd2⟩ := hd
      obtain ⟨u, hu⟩ := Option.isSome_iff_exists.mp hd2
      have hru : (if data.repeat_end_type = RepeatEndTypeEnum.date ∧ data.repeat_until.isSome
          then some (convUserToUtc (data.repeat_until.getD data.start_time) Option.none)
          else Option.none) = some u := by
        rw [if_pos ⟨hd1, hd2⟩, hu]
        rfl
      rw [hru]
      have hu2 := h2 u hd1 hu
      simp only [convUserToUtc_none]
      have hcnt : ¬ (data.repeat_end_type = RepeatEndTypeEnum.count ∧
          ¬ (optIntTruthy data.repeat_count = true)) := by
        intro hcc
        rw [hd1] at hcc
        exact absurd hcc.1 (by decide)
      rw [if_neg (by simp only [decide_eq_true_eq]; omega), if_neg hcnt,
        if_pos (show ¬ (userExists = true) by rw [hne]; simp)]
    · have hru : (if data.repeat_end_type = RepeatEndTypeEnum.date ∧ data.repeat_until.isSome
          then some (convUserToUtc (data.repeat_until.getD data.start_time) Option.none)
          else Option.none) = Option.none := by
        rw [if_neg]
        simpa using hd
      rw [hru]
      rw [if_neg (by simp)]
      rw [if_neg (show ¬ (data.repeat_end_type = RepeatEndTypeEnum.count ∧
        ¬ (optIntTruthy data.repeat_count = true)) from fun hc => hc.2 (h3 hc.1))]
      rw [if_pos (show ¬ (userExists = true) by rw [hne]; simp)]
  · intro hok hue hrole huid
    obtain ⟨h1, h2, h3⟩ := hok
    unfold create_event
    rw [if_neg hnd, if_neg (by simp only [convUserToUtc_none]; omega)]
    by_cases hd : data.repeat_end_type = RepeatEndTypeEnum.date ∧ data.repeat_until.isSome = true
    · obtain ⟨hd1, hd2⟩ := hd
      obtain ⟨u, hu⟩ := Option.isSome_iff_exists.mp hd2
      have hru : (if data.repeat_end_type = RepeatEndTypeEnum.date ∧ data.repeat_until.isSome
          then some (convUserToUtc (data.repeat_until.getD data.start_time) Option.none)
          else Option.none) = some u := by
        rw [if_pos ⟨hd1, hd2⟩, hu]
        rfl
      rw [hru]
      have hu2 := h2 u hd1 hu
      simp only [convUserToUtc_none]
      have hcnt : ¬ (data.repeat_end_type = RepeatEndTypeEnum.count ∧
          ¬ (optIntTruthy data.repeat_count = true)) := by
        intro hcc
        rw [hd1] at hcc
        exact absurd hcc.1 (by decide)
      rw [if_neg (by simp only [decide_eq_true_eq]; omega), if_neg hcnt,
        if_neg (show ¬ ¬ (userExists = true) by rw [hue]; simp),
        if_pos (show role_id ≠ 1 ∧ data.user_id ≠ uid from ⟨hrole, huid⟩)]
    · have hru : (if data.repeat_end_type = RepeatEndTypeEnum.date ∧ data.repeat_until.isSome
          then some (convUserToUtc (data.repeat_until.getD data.start_time) Option.none)
          else Option.none) = Option.none := by
        rw [if_neg]
        simpa using hd
      rw [hru]
      rw [if_neg (by simp)]
      rw [if_neg (show ¬ (data.repeat_end_type = RepeatEndTypeEnum.count ∧
        ¬ (optIntTruthy data.repeat_count = true)) from fun hc => hc.2 (h3 hc.1))]
      rw [if_neg (show ¬ ¬ (userExists = true) by rw [hue]; simp)]
      rw [if_pos (show role_id ≠ 1 ∧ data.user_id ≠ uid from ⟨hrole, huid⟩)]

def c8CxData : EventCreateData :=
  { user_id := 4, title := "invalid repeat params",
    start_time := ⟨2024, 1, 1, 32400⟩, end_time := ⟨2024, 1, 1, 36000⟩,
    repeat_type := RepeatTypeEnum.daily, repeat_interval := 0,
    repeat_end_type := RepeatEndTypeEnum.count, repeat_count := some (-1) }

/-- C8 counterexample: a creation request with `repeat_interval = 0` and
`repeat_count = -1` (end-type=count) passes every validation in
`create_event` and the row is committed — no 400 is returned, refuting the
claim that `repeat_interval < 1` and `repeat_count < 1` are rejected at
creation time (`-1` is truthy in Python, so even the count-required check
passes). -/
theorem c8_invalid_interval_and_count_accepted :
    c8CxData.repeat_interval = 0 ∧ c8CxData.repeat_count = some (-1) ∧
    (create_event c8CxData Option.none true 1 4 55).isOk = true := by
  refine ⟨rfl, rfl, ?_⟩
  rfl

def c8WitnessData : EventCreateData :=
  { user_id := 4, title := "backwards",
    start_time := ⟨2024, 1, 1, 36000⟩, end_time := ⟨2024, 1, 1, 32400⟩,
    repeat_type := RepeatTypeEnum.none, repeat_end_type := RepeatEndTypeEnum.never }

theorem c8_creation_validation_witness :
    validate_repeat_days_ok c8WitnessData.repeat_days = true ∧
    c8WitnessData.end_time.toAbs ≤ c8WitnessData.start_time.toAbs ∧
    create_event c8WitnessData Option.none true 1 4 9 =
      Except.error (ApiError.badRequest "End time must be after start time") :=
  ⟨by decide, by decide,
    (c8_creation_validation c8WitnessData true 1 4 9 (by decide)).1 (by decide)⟩

/-! ## Unfolding equations for the fuelled loops -/

theorem mainGo_succ (e : Event) (duration : Int) (repeat_end start_date end_date : DT)
    (tz : Option Int) (exceptions : List EventException) (cache : Nat → Option Event)
    (fuel occurrence_count : Nat) (current_date : DT) :
    mainGo e duration repeat_end start_date end_date tz exceptions cache
        (fuel + 1) occurrence_count current_date =
      if current_date.toAbs ≤ min repeat_end.toAbs end_date.toAbs then
        if e.repeat_end_type = RepeatEndTypeEnum.count ∧ optIntTruthy e.repeat_count ∧
            e.repeat_count.getD 0 ≤ (occurrence_count : Int) then []
        else
          let instance_end := addSecs duration current_date
          let emitted :=
            if start_date.toAbs ≤ instance_end.toAbs ∧
                current_date.toAbs ≤ end_date.toAbs then
              (overlayOccurrence e current_date instance_end tz exceptions cache).toList
            else []
          match stepOccurrence e current_date with
          | some next =>
              emitted ++ mainGo e duration repeat_end start_date end_date tz
                exceptions cache fuel (occurrence_count + 1) next
          | Option.none => emitted
      else [] := rfl

theorem weeklyGo_succ (e : Event) (allowed : List Int) (duration : Int)
    (repeat_end : DT) (maxWeekCycles : Option Int) (start_date end_date : DT)
    (tz : Option Int) (exceptions : List EventException)
    (cache : Nat → Option Event) (fuel week_number week_cycle_count : Nat) :
    weeklyGo e allowed duration repeat_end maxWeekCycles start_date end_date tz
        exceptions cache (fuel + 1) week_number week_cycle_count =
      if repeat_end.toAbs < (addDays (7 * week_number) e.start_time).toAbs then []
      else if week_number % e.repeat_interval = 0 then
        if cycleLimitReached maxWeekCycles week_cycle_count then []
        else
          weekInstances e allowed duration start_date end_date tz exceptions cache
              week_number ++
            weeklyGo e allowed duration repeat_end maxWeekCycles start_date end_date
              tz exceptions cache fuel (week_number + 1) (week_cycle_count + 1)
      else
        weeklyGo e allowed duration repeat_end maxWeekCycles start_date end_date
          tz exceptions cache fuel (week_number + 1) week_cycle_count := rfl

theorem prevStepGo_succ (step : DT → DT) (target : DT) (fuel : Nat)
    (current previous : DT) :
    prevStepGo step target (fuel + 1) current previous =
      if current.toAbs < target.toAbs then
        prevStepGo step target fuel (step current) current
      else previous := rfl

theorem prevWeeklyGo_succ (e : Event) (allowed : List Int) (target : DT)
    (fuel week_number : Nat) (previous : DT) :
    prevWeeklyGo e allowed target (fuel + 1) week_number previous =
      if target.toAbs ≤ (addDays (7 * week_number) e.start_time).toAbs then previous
      else
        prevWeeklyGo e allowed target fuel (week_number + 1)
          (if week_number % e.repeat_interval = 0 then
            prevWeekScan e allowed target week_number previous
          else previous) := rfl

/-! ## Claim C10: the `custom` repeat type -/

theorem apply_timezone_to_event_none (d : Inst) :
    apply_timezone_to_event d Option.none = d := rfl

theorem stepOccurrence_custom (e : Event) (t : DT)
    (hty : e.repeat_type = RepeatTypeEnum.custom) :
    stepOccurrence e t = Option.none := by
  unfold stepOccurrence
  rw [hty]

theorem overlayOccurrence_nil (e : Event) (s en : DT) (tz : Option Int)
    (cache : Nat → Option Event) :
    overlayOccurrence e s en tz [] cache =
      some (apply_timezone_to_event
        { id := e.id, user_id := e.user_id, parent_event_id := e.parent_event_id,
          title := e.title, description := e.description,
          start_time := s, end_time := en,
          all_day := e.all_day, repeat_type := e.repeat_type,
          repeat_interval := e.repeat_interval, repeat_days := e.repeat_days,
          repeat_until := e.repeat_until, repeat_end_type := e.repeat_end_type,
          repeat_count := e.repeat_count, created_by := e.created_by,
          created_at := e.created_at, updated_at := e.updated_at,
          is_repeat_instance := some true,
          original_start := some e.start_time } tz) := rfl

/-- C10: the ORM enum has a sixth member `custom` (absent from the creation
schema); the PATCH handler validates `repeat_type` against that enum and so
accepts it, and for a custom-typed event whose base start lies in the query
window (no count/until limit excluding it) the generator emits exactly one
instance duplicating the base occurrence (same start and end), tagged
`is_repeat_instance = true` with `original_start` the base start. -/
theorem c10_custom_repeat_type (e : Event) (sd ed : DT) (cache : Nat → Option Event)
    (uid nid : Nat)
    (hty : e.repeat_type = RepeatTypeEnum.custom)
    (hsv : e.start_time.Valid) (hev : e.end_time.Valid)
    (hdur : e.start_time.toAbs ≤ e.end_time.toAbs)
    (hw1 : sd.toAbs ≤ e.start_time.toAbs) (hw2 : e.start_time.toAbs ≤ ed.toAbs)
    (huntil : ∀ u, e.repeat_end_type = RepeatEndTypeEnum.date →
      e.repeat_until = some u → e.start_time.toAbs ≤ u.toAbs)
    (hcount : e.repeat_end_type = RepeatEndTypeEnum.count →
      optIntTruthy e.repeat_count = true → 1 ≤ e.repeat_count.getD 0) :
    repeatTypeByName "custom" = some RepeatTypeEnum.custom ∧
    (update_event e { scope := some "all", repeat_type := some "custom" }
        Option.none 1 uid nid).toOption.map (fun eff => eff.base.repeat_type) =
      some RepeatTypeEnum.custom ∧
    (∃ inst : Inst,
      generate_repeat_instances e sd ed Option.none [] cache = [inst] ∧
      inst.start_time = e.start_time ∧ inst.end_time = e.end_time ∧
      inst.is_repeat_instance = some true ∧
      inst.original_start = some e.start_time) := by
  refine ⟨rfl, ?_, ?_⟩
  · simp [update_event, hasUpdateFields, applyUpdateFields, repeatTypeByName]
    exact ⟨_, rfl, rfl⟩
  · unfold generate_repeat_instances
    rw [if_neg (by rw [hty]; decide)]
    rw [if_neg (by rw [hty]; simp)]
    rw [stepOccurrence_custom e e.start_time hty]
    simp only [Option.getD_none]
    set re := (if e.repeat_end_type = RepeatEndTypeEnum.date ∧ e.repeat_until.isSome
      then e.repeat_until.getD ed
      else if e.repeat_end_type = RepeatEndTypeEnum.count ∧
          optIntTruthy e.repeat_count then ed
      else ed) with hre
    have hsre : e.start_time.toAbs ≤ re.toAbs := by
      rw [hre]
      split_ifs with hA hB
      · obtain ⟨u, hu⟩ := Option.isSome_iff_exists.mp hA.2
        rw [hu]
        exact huntil u hA.1 hu
      · exact hw2
      · exact hw2
    obtain ⟨f, hf⟩ : ∃ f, mainFuel e re ed = f + 1 :=
      ⟨mainFuel e re ed - 1, by unfold mainFuel; omega⟩
    rw [hf]
    rw [mainGo_succ]
    rw [if_pos (by omega)]
    rw [if_neg ?hcnt]
    case hcnt =>
      intro hcc
      have := hcount hcc.1 hcc.2.1
      have := hcc.2.2
      omega
    have hend : (addSecs (e.end_time.toAbs - e.start_time.toAbs) e.start_time).toAbs
        = e.end_time.toAbs := by
      rw [addSecs_toAbs _ _ hsv (by omega)]
      omega
    dsimp only
    rw [if_pos (show sd.toAbs ≤
        (addSecs (e.end_time.toAbs - e.start_time.toAbs) e.start_time).toAbs ∧
        e.start_time.toAbs ≤ ed.toAbs from ⟨by omega, hw2⟩)]
    rw [overlayOccurrence_nil, apply_timezone_to_event_none]
    rw [stepOccurrence_custom e e.start_time hty]
    refine ⟨_, rfl, rfl, ?_, rfl, rfl⟩
    show addSecs (e.end_time.toAbs - e.start_time.toAbs) e.start_time = e.end_time
    exact DT.toAbs_inj _ _ (addSecs_valid _ _ hsv (by omega)) hev hend

def c10Event : Event :=
  { id := 20, user_id := 3, title := "oneoff",
    start_time := ⟨2024, 5, 1, 28800⟩, end_time := ⟨2024, 5, 1, 32400⟩,
    repeat_type := RepeatTypeEnum.custom,
    repeat_end_type := RepeatEndTypeEnum.never, created_by := 3 }

theorem c10_custom_repeat_type_witness :
    c10Event.repeat_type = RepeatTypeEnum.custom ∧
    (repeatTypeByName "custom" = some RepeatTypeEnum.custom ∧
      (update_event c10Event { scope := some "all", repeat_type := some "custom" }
          Option.none 1 3 77).toOption.map (fun eff => eff.base.repeat_type) =
        some RepeatTypeEnum.custom ∧
      (∃ inst : Inst,
        generate_repeat_instances c10Event ⟨2024, 4, 1, 0⟩ ⟨2024, 6, 1, 0⟩
            Option.none [] (fun _ => Option.none) = [inst] ∧
        inst.start_time = c10Event.start_time ∧
        inst.end_time = c10Event.end_time ∧
        inst.is_repeat_instance = some true ∧
        inst.original_start = some c10Event.start_time)) :=
  ⟨by decide,
    c10_custom_repeat_type c10Event ⟨2024, 4, 1, 0⟩ ⟨2024, 6, 1, 0⟩
      (fun _ => Option.none) 3 77 (by decide) (by decide) (by decide) (by decide)
      (by decide) (by decide) (fun u h1 _ => absurd h1 (by decide))
      (fun h1 _ => absurd h1 (by decide))⟩

/-! ## Claim C3: the base occurrence is skipped -/

/-- The substituted dict for a modified occurrence (source lines 267–272 and
347–350): the replacement event's own fields, retagged. -/
def modifiedInstanceDict (e me : Event) (tz : Option Int) : Inst :=
  { event_to_dict_with_timezone me tz with
    is_repeat_instance := some true, original_start := some e.start_time }

theorem filterMap_overlay_rel {α β : Type} (f g : α → Option β) (p : β → Bool)
    (h : β → β) (l : List α)
    (hpt : ∀ a ∈ l, g a = match f a with
      | some b => if p b then some (h b) else Option.none
      | Option.none => Option.none) :
    l.filterMap g = ((l.filterMap f).filter p).map h := by
  induction l with
  | nil => rfl
  | cons x xs ih =>
      rw [List.filterMap_cons, List.filterMap_cons]
      rw [hpt x (List.mem_cons_self x xs)]
      have ihx := ih (fun a ha => hpt a (List.mem_cons_of_mem x ha))
      cases hfx : f x with
      | none => exact ihx
      | some b =>
          dsimp only
          by_cases hp : p b = true
          · rw [if_pos hp]
            dsimp only
            rw [List.filter_cons_of_pos hp, List.map_cons, ihx]
          · rw [if_neg hp]
            dsimp only
            rw [List.filter_cons_of_neg (by simpa using hp)]
            exact ihx

/-- Pointwise effect of a single `deleted` exception on the overlay. -/
theorem overlay_single_deleted (e : Event) (s en : DT) (cache : Nat → Option Event)
    (eid d1 : Nat) :
    overlayOccurrence e s en Option.none
        [⟨eid, d1, ExceptionTypeEnum.deleted, Option.none⟩] cache =
      match overlayOccurrence e s en Option.none [] cache with
      | some b => if s.dateIdx != d1 then some b else Option.none
      | Option.none => Option.none := by
  rw [overlayOccurrence_nil]
  unfold overlayOccurrence should_include_occurrence get_modified_event_for_occurrence
  by_cases hd : d1 = s.dateIdx
  · subst hd
    simp
  · simp [hd, Ne.symm hd]

/-- Pointwise effect of a deleted exception on one date and a modified
exception on another (the spec's two-exception scenario). -/
theorem overlay_deleted_and_modified (e repl : Event) (s en : DT)
    (cache : Nat → Option Event) (eid1 eid2 d1 d2 mid : Nat)
    (hmid : mid ≠ 0) (hcache : cache mid = some repl) (hd12 : d1 ≠ d2) :
    overlayOccurrence e s en Option.none
        [⟨eid1, d1, ExceptionTypeEnum.deleted, Option.none⟩,
         ⟨eid2, d2, ExceptionTypeEnum.modified, some mid⟩] cache =
      match overlayOccurrence e s en Option.none [] cache with
      | some b =>
          if s.dateIdx != d1 then
            some (if s.dateIdx = d2 then modifiedInstanceDict e repl Option.none else b)
          else Option.none
      | Option.none => Option.none := by
  rw [overlayOccurrence_nil]
  unfold overlayOccurrence should_include_occurrence get_modified_event_for_occurrence
  by_cases h1 : d1 = s.dateIdx
  · subst h1
    simp
  · by_cases h2 : d2 = s.dateIdx
    · subst h2
      simp [h1, Ne.symm h1, hmid, hcache, modifiedInstanceDict]
    · simp [h1, Ne.symm h1, h2, Ne.symm h2]

theorem weekInstances_overlay_rel (e : Event) (allowed : List Int) (duration : Int)
    (start_date end_date : DT) (cache : Nat → Option Event)
    (E : List EventException) (p : Inst → Bool) (h : Inst → Inst) (week_number : Nat)
    (hov : ∀ s en, overlayOccurrence e s en Option.none E cache =
      match overlayOccurrence e s en Option.none [] cache with
      | some b => if p b then some (h b) else Option.none
      | Option.none => Option.none) :
    weekInstances e allowed duration start_date end_date Option.none E cache
        week_number =
      ((weekInstances e allowed duration start_date end_date Option.none [] cache
        week_number).filter p).map h := by
  unfold weekInstances
  apply filterMap_overlay_rel
  intro off hoff
  dsimp only
  split
  · split
    · rfl
    · split
      · rfl
      · split
        · exact hov _ _
        · rfl
  · rfl

theorem mainGo_overlay_rel (e : Event) (duration : Int)
    (repeat_end start_date end_date : DT) (cache : Nat → Option Event)
    (E : List EventException) (p : Inst → Bool) (h : Inst → Inst)
    (hov : ∀ s en, overlayOccurrence e s en Option.none E cache =
      match overlayOccurrence e s en Option.none [] cache with
      | some b => if p b then some (h b) else Option.none
      | Option.none => Option.none) :
    ∀ fuel occurrence_count current,
      mainGo e duration repeat_end start_date end_date Option.none E cache fuel
          occurrence_count current =
        ((mainGo e duration repeat_end start_date end_date Option.none [] cache fuel
          occurrence_count current).filter p).map h := by
  intro fuel
  induction fuel with
  | zero => intro cnt cur; rfl
  | succ f ih =>
      intro cnt cur
      rw [mainGo_succ, mainGo_succ]
      split
      · split
        · rfl
        · dsimp only
          have hemit : (if start_date.toAbs ≤ (addSecs duration cur).toAbs ∧
                cur.toAbs ≤ end_date.toAbs then
                (overlayOccurrence e cur (addSecs duration cur) Option.none E
                  cache).toList
              else []) =
              (((if start_date.toAbs ≤ (addSecs duration cur).toAbs ∧
                  cur.toAbs ≤ end_date.toAbs then
                  (overlayOccurrence e cur (addSecs duration cur) Option.none []
                    cache).toList
                else []).filter p).map h) := by
            split
            · rw [hov]
              rw [overlayOccurrence_nil]
              dsimp only
              by_cases hpb : p (apply_timezone_to_event
                  { id := e.id, user_id := e.user_id,
                    parent_event_id := e.parent_event_id, title := e.title,
                    description := e.description, start_time := cur,
                    end_time := addSecs duration cur, all_day := e.all_day,
                    repeat_type := e.repeat_type,
                    repeat_interval := e.repeat_interval,
                    repeat_days := e.repeat_days, repeat_until := e.repeat_until,
                    repeat_end_type := e.repeat_end_type,
                    repeat_count := e.repeat_count, created_by := e.created_by,
                    created_at := e.created_at, updated_at := e.updated_at,
                    is_repeat_instance := some true,
                    original_start := some e.start_time } Option.none) = true
              · simp [hpb]
              · simp [hpb]
            · rfl
          cases hso : stepOccurrence e cur with
          | none => exact hemit
          | some nxt =>
              dsimp only
              rw [List.filter_append, List.map_append, ih (cnt + 1) nxt, hemit]
      · rfl

theorem weeklyGo_overlay_rel (e : Event) (allowed : List Int) (duration : Int)
    (repeat_end : DT) (maxWeekCycles : Option Int) (start_date end_date : DT)
    (cache : Nat → Option Event) (E : List EventException) (p : Inst → Bool)
    (h : Inst → Inst)
    (hov : ∀ s en, overlayOccurrence e s en Option.none E cache =
      match overlayOccurrence e s en Option.none [] cache with
      | some b => if p b then some (h b) else Option.none
      | Option.none => Option.none) :
    ∀ fuel week_number week_cycle_count,
      weeklyGo e allowed duration repeat_end maxWeekCycles start_date end_date
          Option.none E cache fuel week_number week_cycle_count =
        ((weeklyGo e allowed duration repeat_end maxWeekCycles start_date end_date
          Option.none [] cache fuel week_number week_cycle_count).filter p).map h := by
  intro fuel
  induction fuel with
  | zero => intro wn cyc; rfl
  | succ f ih =>
      intro wn cyc
      rw [weeklyGo_succ, weeklyGo_succ]
      split
      · rfl
      · split
        · split
          · rfl
          · rw [List.filter_append, List.map_append, ih (wn + 1) (cyc + 1),
              weekInstances_overlay_rel e allowed duration start_date end_date cache
                E p h wn hov]
        · exact ih (wn + 1) cyc

theorem generate_overlay_rel (e : Event) (sd ed : DT) (cache : Nat → Option Event)
    (E : List EventException) (p : Inst → Bool) (h : Inst → Inst)
    (hov : ∀ s en, overlayOccurrence e s en Option.none E cache =
      match overlayOccurrence e s en Option.none [] cache with
      | some b => if p b then some (h b) else Option.none
      | Option.none => Option.none) :
    generate_repeat_instances e sd ed Option.none E cache =
      ((generate_repeat_instances e sd ed Option.none [] cache).filter p).map h := by
  unfold generate_repeat_instances
  split
  · rfl
  · dsimp only
    split
    · exact weeklyGo_overlay_rel e _ _ _ _ sd ed cache E p h hov _ 0 0
    · exact mainGo_overlay_rel e _ _ sd ed cache E p h hov _ 0 _

/-- C4: the exception overlay takes precedence in the generated output.
With a `deleted` exception on date `d1` the generator's output is exactly
the no-exception output with the `d1`-dated occurrence dropped (so that
occurrence is absent); adding a `modified` exception on date `d2` (whose
replacement is in the preloaded cache) the output is the no-exception
output with the `d1` entry dropped and the `d2` entry replaced by a dict
carrying the replacement event's fields, still tagged
`is_repeat_instance = true` with `original_start` the base start. -/
theorem c4_exception_overlay_precedence (e repl : Event) (sd ed : DT)
    (cache : Nat → Option Event) (d1 d2 mid : Nat)
    (hmid : mid ≠ 0) (hcache : cache mid = some repl) (hd12 : d1 ≠ d2) :
    generate_repeat_instances e sd ed Option.none
        [⟨e.id, d1, ExceptionTypeEnum.deleted, Option.none⟩] cache =
      (generate_repeat_instances e sd ed Option.none [] cache).filter
        (fun i => i.start_time.dateIdx != d1) ∧
    (∀ inst ∈ generate_repeat_instances e sd ed Option.none
        [⟨e.id, d1, ExceptionTypeEnum.deleted, Option.none⟩] cache,
      inst.start_time.dateIdx ≠ d1) ∧
    generate_repeat_instances e sd ed Option.none
        [⟨e.id, d1, ExceptionTypeEnum.deleted, Option.none⟩,
         ⟨e.id, d2, ExceptionTypeEnum.modified, some mid⟩] cache =
      ((generate_repeat_instances e sd ed Option.none [] cache).filter
        (fun i => i.start_time.dateIdx != d1)).map
        (fun i => if i.start_time.dateIdx = d2
          then modifiedInstanceDict e repl Option.none else i) ∧
    (modifiedInstanceDict e repl Option.none).title = repl.title ∧
    (modifiedInstanceDict e repl Option.none).start_time = repl.start_time ∧
    (modifiedInstanceDict e repl Option.none).end_time = repl.end_time ∧
    (modifiedInstanceDict e repl Option.none).is_repeat_instance = some true ∧
    (modifiedInstanceDict e repl Option.none).original_start = some e.start_time := by
  have h1 : generate_repeat_instances e sd ed Option.none
      [⟨e.id, d1, ExceptionTypeEnum.deleted, Option.none⟩] cache =
      (generate_repeat_instances e sd ed Option.none [] cache).filter
        (fun i => i.start_time.dateIdx != d1) := by
    have hg := generate_overlay_rel e sd ed cache
      [⟨e.id, d1, ExceptionTypeEnum.deleted, Option.none⟩]
      (fun i => i.start_time.dateIdx != d1) id ?hov
    · simpa using hg
    case hov =>
      intro s en
      rw [overlay_single_deleted e s en cache e.id d1, overlayOccurrence_nil]
      rfl
  refine ⟨h1, ?_, ?_, rfl, rfl, rfl, rfl, rfl⟩
  · intro inst hmem
    rw [h1] at hmem
    have := (List.mem_filter.mp hmem).2
    simpa using this
  · have hg := generate_overlay_rel e sd ed cache
      [⟨e.id, d1, ExceptionTypeEnum.deleted, Option.none⟩,
       ⟨e.id, d2, ExceptionTypeEnum.modified, some mid⟩]
      (fun i => i.start_time.dateIdx != d1)
      (fun i => if i.start_time.dateIdx = d2
        then modifiedInstanceDict e repl Option.none else i) ?hov2
    · exact hg
    case hov2 =>
      intro s en
      rw [overlay_deleted_and_modified e repl s en cache e.id e.id d1 d2 mid hmid
        hcache hd12, overlayOccurrence_nil]
      rfl

def c4Event : Event :=
  { id := 40, user_id := 5, title := "weekly session",
    start_time := ⟨2024, 1, 1, 32400⟩, end_time := ⟨2024, 1, 1, 36000⟩,
    repeat_type := RepeatTypeEnum.weekly, repeat_interval := 1,
    repeat_days := some "0,2,4",
    repeat_end_type := RepeatEndTypeEnum.never, created_by := 5 }

def c4Repl : Event :=
  { id := 70, user_id := 5, title := "moved session",
    start_time := ⟨2024, 1, 8, 46800⟩, end_time := ⟨2024, 1, 8, 50400⟩,
    repeat_type := RepeatTypeEnum.none,
    repeat_end_type := RepeatEndTypeEnum.never, created_by := 5 }

def c4Cache : Nat → Option Event :=
  fun i => if i = 70 then some c4Repl else Option.none

theorem c4_exception_overlay_precedence_witness :
    (70 : Nat) ≠ 0 ∧ c4Cache 70 = some c4Repl ∧
    (⟨2024, 1, 3, 0⟩ : DT).dateIdx ≠ (⟨2024, 1, 8, 0⟩ : DT).dateIdx ∧
    (generate_repeat_instances c4Event ⟨2024, 1, 1, 0⟩ ⟨2024, 2, 1, 0⟩ Option.none
        [⟨c4Event.id, (⟨2024, 1, 3, 0⟩ : DT).dateIdx, ExceptionTypeEnum.deleted,
          Option.none⟩] c4Cache =
      (generate_repeat_instances c4Event ⟨2024, 1, 1, 0⟩ ⟨2024, 2, 1, 0⟩ Option.none
        [] c4Cache).filter
        (fun i => i.start_time.dateIdx != (⟨2024, 1, 3, 0⟩ : DT).dateIdx) ∧
    (∀ inst ∈ generate_repeat_instances c4Event ⟨2024, 1, 1, 0⟩ ⟨2024, 2, 1, 0⟩
        Option.none
        [⟨c4Event.id, (⟨2024, 1, 3, 0⟩ : DT).dateIdx, ExceptionTypeEnum.deleted,
          Option.none⟩] c4Cache,
      inst.start_time.dateIdx ≠ (⟨2024, 1, 3, 0⟩ : DT).dateIdx) ∧
    generate_repeat_instances c4Event ⟨2024, 1, 1, 0⟩ ⟨2024, 2, 1, 0⟩ Option.none
        [⟨c4Event.id, (⟨2024, 1, 3, 0⟩ : DT).dateIdx, ExceptionTypeEnum.deleted,
          Option.none⟩,
         ⟨c4Event.id, (⟨2024, 1, 8, 0⟩ : DT).dateIdx, ExceptionTypeEnum.modified,
          some 70⟩] c4Cache =
      ((generate_repeat_instances c4Event ⟨2024, 1, 1, 0⟩ ⟨2024, 2, 1, 0⟩
        Option.none [] c4Cache).filter
        (fun i => i.start_time.dateIdx != (⟨2024, 1, 3, 0⟩ : DT).dateIdx)).map
        (fun i => if i.start_time.dateIdx = (⟨2024, 1, 8, 0⟩ : DT).dateIdx
          then modifiedInstanceDict c4Event c4Repl Option.none else i) ∧
    (modifiedInstanceDict c4Event c4Repl Option.none).title = c4Repl.title ∧
    (modifiedInstanceDict c4Event c4Repl Option.none).start_time = c4Repl.start_time ∧
    (modifiedInstanceDict c4Event c4Repl Option.none).end_time = c4Repl.end_time ∧
    (modifiedInstanceDict c4Event c4Repl Option.none).is_repeat_instance = some true ∧
    (modifiedInstanceDict c4Event c4Repl Option.none).original_start =
      some c4Event.start_time) :=
  ⟨by decide, rfl, by decide,
    c4_exception_overlay_precedence c4Event c4Repl ⟨2024, 1, 1, 0⟩ ⟨2024, 2, 1, 0⟩
      c4Cache (⟨2024, 1, 3, 0⟩ : DT).dateIdx (⟨2024, 1, 8, 0⟩ : DT).dateIdx 70
      (by decide) rfl (by decide)⟩

/-! ## Claim C7: scope=this isolation -/

/-- Pointwise effect of a single `modified` exception on the overlay. -/
theorem overlay_single_modified (e repl : Event) (s en : DT)
    (cache : Nat → Option Event) (eid d2 mid : Nat)
    (hmid : mid ≠ 0) (hcache : cache mid = some repl) :
    overlayOccurrence e s en Option.none
        [⟨eid, d2, ExceptionTypeEnum.modified, some mid⟩] cache =
      match overlayOccurrence e s en Option.none [] cache with
      | some b =>
          some (if s.dateIdx = d2 then modifiedInstanceDict e repl Option.none else b)
      | Option.none => Option.none := by
  rw [overlayOccurrence_nil]
  unfold overlayOccurrence should_include_occurrence get_modified_event_for_occurrence
  by_cases h2 : d2 = s.dateIdx
  · subst h2
    simp [hmid, hcache, modifiedInstanceDict]
  · simp [h2, Ne.symm h2]

/-- A single `modified` exception rewrites exactly the matching date's
entry in the generator output and leaves every other entry unchanged. -/
theorem generate_single_modified (e repl : Event) (sd ed : DT)
    (cache : Nat → Option Event) (eid d2 mid : Nat)
    (hmid : mid ≠ 0) (hcache : cache mid = some repl) :
    generate_repeat_instances e sd ed Option.none
        [⟨eid, d2, ExceptionTypeEnum.modified, some mid⟩] cache =
      (generate_repeat_instances e sd ed Option.none [] cache).map
        (fun i => if i.start_time.dateIdx = d2
          then modifiedInstanceDict e repl Option.none else i) := by
  have hg := generate_overlay_rel e sd ed cache
    [⟨eid, d2, ExceptionTypeEnum.modified, some mid⟩]
    (fun _ => true)
    (fun i => if i.start_time.dateIdx = d2
      then modifiedInstanceDict e repl Option.none else i) ?hov
  · rw [hg, List.filter_true]
  case hov =>
    intro s en
    rw [overlay_single_modified e repl s en cache eid d2 mid hmid hcache,
      overlayOccurrence_nil]
    rfl

/-- The standalone occurrence event the scope="this" update path inserts
(no timezone header). -/
def thisScopeNewEvent (e : Event) (b : UpdateBody) (D : DT) (uid nid : Nat) : Event :=
  { id := nid, user_id := e.user_id, title := b.title.getD e.title,
    description := b.description.getD e.description,
    start_time := b.start_time.getD D,
    end_time := b.end_time.getD (addSecs (e.end_time.toAbs - e.start_time.toAbs) D),
    all_day := b.all_day.getD e.all_day, repeat_type := RepeatTypeEnum.none,
    repeat_interval := 1, repeat_days := Option.none, repeat_until := Option.none,
    repeat_end_type := RepeatEndTypeEnum.never, repeat_count := Option.none,
    created_by := uid }

/-- C7: a scope="this" update at occurrence date D creates a standalone
non-repeating Event carrying the updated fields (falling back to the base
event's fields, with times defaulting to D and D plus the base duration)
plus an `EventException(modified, modified_event_id = new id)` for date D,
while the base Event row is left completely unchanged; and with the new
exception in the overlay the generator output only rewrites the D-dated
entry (every other occurrence's dict, in particular its computed times, is
unchanged). -/
theorem c7_this_scope_isolation (e : Event) (b : UpdateBody) (D sd ed : DT)
    (uid nid : Nat)
    (htype : ¬ e.repeat_type = RepeatTypeEnum.none)
    (hsc : b.scope = some "this") (hocc : b.occurrence_date = some D)
    (hhf : hasUpdateFields b = true)
    (hrd : (match b.repeat_days with
      | some d => optStrTruthy d && !(validate_repeat_days_ok d)
      | Option.none => false) = false)
    (hrt : (match b.repeat_type with
      | some s => (repeatTypeByName s).isNone
      | Option.none => false) = false)
    (hret : (match b.repeat_end_type with
      | some s => (repeatEndTypeByName s).isNone
      | Option.none => false) = false)
    (htimes : ¬ ((b.start_time.isSome ∨ b.end_time.isSome) ∧
      ((b.end_time.map (fun t => convUserToUtc t Option.none)).getD e.end_time).toAbs ≤
        ((b.start_time.map (fun t => convUserToUtc t Option.none)).getD
          e.start_time).toAbs)) :
    update_event e b Option.none 1 uid nid =
      Except.ok
        { base := e, created := some (thisScopeNewEvent e b D uid nid),
          exceptionAdded := some ⟨e.id, D.dateIdx, ExceptionTypeEnum.modified,
            some nid⟩,
          response := event_to_dict_with_timezone (thisScopeNewEvent e b D uid nid)
            Option.none } ∧
    (∀ cacheExt : Nat → Option Event,
      cacheExt nid = some (thisScopeNewEvent e b D uid nid) → nid ≠ 0 →
      generate_repeat_instances e sd ed Option.none
          [⟨e.id, D.dateIdx, ExceptionTypeEnum.modified, some nid⟩] cacheExt =
        (generate_repeat_instances e sd ed Option.none [] cacheExt).map
          (fun i => if i.start_time.dateIdx = D.dateIdx
            then modifiedInstanceDict e (thisScopeNewEvent e b D uid nid) Option.none
            else i)) := by
  have hmap : ∀ (o : Option DT) (d : DT),
      (o.map (fun t => convUserToUtc t Option.none)).getD d = o.getD d := by
    intro o d
    cases o <;> rfl
  constructor
  · unfold update_event
    rw [if_neg (by simp)]
    rw [hsc, hocc]
    dsimp only [Option.getD_some]
    rw [if_neg (by rw [hhf]; simp)]
    rw [if_neg (by rw [hrd]; simp)]
    rw [if_neg (by rw [hrt]; simp)]
    rw [if_neg (by rw [hret]; simp)]
    rw [if_neg htimes]
    rw [if_neg (by
      intro hc
      rcases hc with hc | hc
      · exact htype hc
      · exact absurd hc (by decide))]
    rw [if_pos rfl]
    rw [hmap, hmap]
    rfl
  · intro cacheExt hc hnid
    exact generate_single_modified e (thisScopeNewEvent e b D uid nid) sd ed cacheExt
      e.id D.dateIdx nid hnid hc

def c7Event : Event :=
  { id := 50, user_id := 5, title := "weekly pt",
    start_time := ⟨2024, 1, 1, 32400⟩, end_time := ⟨2024, 1, 1, 36000⟩,
    repeat_type := RepeatTypeEnum.weekly, repeat_interval := 1,
    repeat_days := some "0,2,4",
    repeat_end_type := RepeatEndTypeEnum.never, created_by := 5 }

def c7Body : UpdateBody :=
  { scope := some "this", occurrence_date := some ⟨2024, 1, 10, 32400⟩,
    title := some "moved pt" }

theorem c7_this_scope_isolation_witness :
    ¬ c7Event.repeat_type = RepeatTypeEnum.none ∧
    c7Body.scope = some "this" ∧ hasUpdateFields c7Body = true ∧
    (update_event c7Event c7Body Option.none 1 5 91 =
      Except.ok
        { base := c7Event,
          created := some (thisScopeNewEvent c7Event c7Body ⟨2024, 1, 10, 32400⟩ 5 91),
          exceptionAdded := some ⟨c7Event.id, (⟨2024, 1, 10, 32400⟩ : DT).dateIdx,
            ExceptionTypeEnum.modified, some 91⟩,
          response := event_to_dict_with_timezone
            (thisScopeNewEvent c7Event c7Body ⟨2024, 1, 10, 32400⟩ 5 91)
            Option.none } ∧
    (∀ cacheExt : Nat → Option Event,
      cacheExt 91 = some (thisScopeNewEvent c7Event c7Body ⟨2024, 1, 10, 32400⟩ 5 91) →
      (91 : Nat) ≠ 0 →
      generate_repeat_instances c7Event ⟨2024, 1, 1, 0⟩ ⟨2024, 2, 1, 0⟩ Option.none
          [⟨c7Event.id, (⟨2024, 1, 10, 32400⟩ : DT).dateIdx,
            ExceptionTypeEnum.modified, some 91⟩] cacheExt =
        (generate_repeat_instances c7Event ⟨2024, 1, 1, 0⟩ ⟨2024, 2, 1, 0⟩
          Option.none [] cacheExt).map
          (fun i => if i.start_time.dateIdx = (⟨2024, 1, 10, 32400⟩ : DT).dateIdx
            then modifiedInstanceDict c7Event
              (thisScopeNewEvent c7Event c7Body ⟨2024, 1, 10, 32400⟩ 5 91)
              Option.none
            else i))) :=
  ⟨by decide, rfl, by decide,
    c7_this_scope_isolation c7Event c7Body ⟨2024, 1, 10, 32400⟩ ⟨2024, 1, 1, 0⟩
      ⟨2024, 2, 1, 0⟩ 5 91 (by decide) rfl rfl (by decide) (by decide) (by decide)
      (by decide) (by decide)⟩

/-! ## Claim C5: the inclusive `repeat_until` bound -/

/-- Everything the weekly-with-days branch emits respects the
`instance_start > repeat_until → continue` guard. -/
theorem weekInstances_le_until (e : Event) (allowed : List Int) (duration : Int)
    (start_date end_date : DT) (cache : Nat → Option Event) (week_number : Nat)
    (u : DT) (hdt : e.repeat_end_type = RepeatEndTypeEnum.date)
    (hu : e.repeat_until = some u) :
    ∀ inst ∈ weekInstances e allowed duration start_date end_date Option.none []
        cache week_number,
      inst.start_time.toAbs ≤ u.toAbs := by
  intro inst hmem
  unfold weekInstances at hmem
  rw [List.mem_filterMap] at hmem
  obtain ⟨off, hoff, hsome⟩ := hmem
  dsimp only at hsome
  split at hsome
  · split at hsome
    · cases hsome
    · rename_i huntil
      split at hsome
      · cases hsome
      · split at hsome
        · rw [overlayOccurrence_nil, apply_timezone_to_event_none] at hsome
          obtain rfl : _ = inst := Option.some.inj hsome
          rw [hu] at huntil
          simp only [hdt, hu, Option.isSome_some, Option.getD_some, true_and,
            not_lt] at huntil
          exact huntil
        · cases hsome
  · cases hsome

/-- Everything the stepping branch emits starts at or before `repeat_end`. -/
theorem mainGo_le_bound (e : Event) (duration : Int)
    (repeat_end start_date end_date : DT) (cache : Nat → Option Event) :
    ∀ fuel occurrence_count current,
      ∀ inst ∈ mainGo e duration repeat_end start_date end_date Option.none []
          cache fuel occurrence_count current,
        inst.start_time.toAbs ≤ repeat_end.toAbs := by
  intro fuel
  induction fuel with
  | zero =>
      intro cnt cur inst hmem
      simp [mainGo] at hmem
  | succ f ih =>
      intro cnt cur inst hmem
      rw [mainGo_succ] at hmem
      split at hmem
      · rename_i hcond
        rw [le_min_iff] at hcond
        split at hmem
        · cases hmem
        · dsimp only at hmem
          have hemit : ∀ inst2,
              inst2 ∈ (if start_date.toAbs ≤ (addSecs duration cur).toAbs ∧
                  cur.toAbs ≤ end_date.toAbs then
                  (overlayOccurrence e cur (addSecs duration cur) Option.none []
                    cache).toList
                else []) → inst2.start_time.toAbs ≤ repeat_end.toAbs := by
            intro inst2 hmem2
            split at hmem2
            · rw [overlayOccurrence_nil, apply_timezone_to_event_none] at hmem2
              rcases List.mem_singleton.mp hmem2 with rfl
              exact hcond.1
            · cases hmem2
          cases hso : stepOccurrence e cur with
          | none =>
              rw [hso] at hmem
              exact hemit inst hmem
          | some nxt =>
              rw [hso] at hmem
              rw [List.mem_append] at hmem
              rcases hmem with hmem | hmem
              · exact hemit inst hmem
              · exact ih (cnt + 1) nxt inst hmem
      · cases hmem

theorem DT.rebuild_eq (t : DT) (s : Nat) (h : t.sod = s) :
    (⟨t.y, t.mo, t.dy, s⟩ : DT) = t := by
  cases t with
  | mk y mo dy sod =>
      simp only at h
      rw [← h]

/-- The computed (non-modified) instance dict. -/
def computedInstanceDict (e : Event) (s en : DT) (tz : Option Int) : Inst :=
  apply_timezone_to_event
    { id := e.id, user_id := e.user_id, parent_event_id := e.parent_event_id,
      title := e.title, description := e.description,
      start_time := s, end_time := en, all_day := e.all_day,
      repeat_type := e.repeat_type, repeat_interval := e.repeat_interval,
      repeat_days := e.repeat_days, repeat_until := e.repeat_until,
      repeat_end_type := e.repeat_end_type, repeat_count := e.repeat_count,
      created_by := e.created_by, created_at := e.created_at,
      updated_at := e.updated_at,
      is_repeat_instance := some true, original_start := some e.start_time } tz

theorem weekInstances_contains (e : Event) (allowed : List Int) (duration : Int)
    (start_date end_date : DT) (cache : Nat → Option Event) (w off : Nat) (u : DT)
    (hoff : off < 7) (hsv : e.start_time.Valid)
    (hwd : (addDays (7 * w + off) e.start_time).weekday ∈ allowed)
    (hdt : e.repeat_end_type = RepeatEndTypeEnum.date)
    (hu : e.repeat_until = some u)
    (hle : (addDays (7 * w + off) e.start_time).toAbs ≤ u.toAbs)
    (hne : ¬ (addDays (7 * w + off) e.start_time).toAbs = e.start_time.toAbs)
    (hwin1 : start_date.toAbs ≤
      (addSecs duration (addDays (7 * w + off) e.start_time)).toAbs)
    (hwin2 : (addDays (7 * w + off) e.start_time).toAbs ≤ end_date.toAbs) :
    computedInstanceDict e (addDays (7 * w + off) e.start_time)
        (addSecs duration (addDays (7 * w + off) e.start_time)) Option.none ∈
      weekInstances e allowed duration start_date end_date Option.none [] cache w := by
  unfold weekInstances
  rw [List.mem_filterMap]
  refine ⟨off, List.mem_range.mpr hoff, ?_⟩
  have hcheck : addDays off (addDays (7 * w) e.start_time) =
      addDays (7 * w + off) e.start_time := by
    rw [addDays_add, Nat.add_comm]
  dsimp only
  rw [hcheck]
  have hge : e.start_time.toAbs ≤ (addDays (7 * w + off) e.start_time).toAbs := by
    rw [addDays_toAbs _ _ hsv]
    omega
  rw [if_pos ⟨hwd, hge⟩]
  have his : (⟨(addDays (7 * w + off) e.start_time).y,
      (addDays (7 * w + off) e.start_time).mo,
      (addDays (7 * w + off) e.start_time).dy, e.start_time.sod⟩ : DT) =
      addDays (7 * w + off) e.start_time :=
    DT.rebuild_eq _ _ (addDays_sod (7 * w + off) e.start_time)
  rw [his]
  rw [if_neg (by
    intro hcc
    rw [hu] at hcc
    have := hcc.2.2
    simp only [Option.getD_some] at this
    omega)]
  rw [if_neg hne]
  rw [if_pos ⟨hwin1, hwin2⟩]
  rfl

theorem weeklyGo_reaches (e : Event) (allowed : List Int) (duration : Int)
    (repeat_end start_date end_date : DT) (cache : Nat → Option Event) (w : Nat)
    (hsv : e.start_time.Valid)
    (hws : (addDays (7 * w) e.start_time).toAbs ≤ repeat_end.toAbs)
    (hwi : w % e.repeat_interval = 0) :
    ∀ fuel wn cyc, wn ≤ w → w - wn < fuel →
      ∀ inst ∈ weekInstances e allowed duration start_date end_date Option.none []
          cache w,
        inst ∈ weeklyGo e allowed duration repeat_end Option.none start_date
          end_date Option.none [] cache fuel wn cyc := by
  intro fuel
  induction fuel with
  | zero =>
      intro wn cyc hle hfuel
      omega
  | succ f ih =>
      intro wn cyc hle hfuel inst hmem
      rw [weeklyGo_succ]
      have hmono : (addDays (7 * wn) e.start_time).toAbs ≤
          (addDays (7 * w) e.start_time).toAbs := by
        rw [addDays_toAbs _ _ hsv, addDays_toAbs _ _ hsv]
        have : 7 * wn ≤ 7 * w := by omega
        push_cast
        omega
      rw [if_neg (by omega)]
      rcases Nat.lt_or_ge wn w with hlt | hge
      · by_cases hmod : wn % e.repeat_interval = 0
        · rw [if_pos hmod]
          rw [if_neg (by simp [cycleLimitReached])]
          exact List.mem_append_right _ (ih (wn + 1) (cyc + 1) (by omega) (by omega)
            inst hmem)
        · rw [if_neg hmod]
          exact ih (wn + 1) cyc (by omega) (by omega) inst hmem
      · have hwn : wn = w := by omega
        subst hwn
        rw [if_pos hwi]
        rw [if_neg (by simp [cycleLimitReached])]
        exact List.mem_append_left _ hmem

theorem overlayOccurrence_nil_computed (e : Event) (s en : DT) (tz : Option Int)
    (cache : Nat → Option Event) :
    overlayOccurrence e s en tz [] cache = some (computedInstanceDict e s en tz) :=
  rfl

theorem mainGo_reaches (e : Event) (stp : DT → DT) (duration : Int)
    (repeat_end start_date end_date : DT) (cache : Nat → Option Event)
    (hst : ∀ x : DT, stepOccurrence e x = some (stp x))
    (hg : GoodStep stp) (hsv : e.start_time.Valid)
    (hnc : ¬ (e.repeat_end_type = RepeatEndTypeEnum.count ∧
      optIntTruthy e.repeat_count))
    (k : Nat)
    (hbound : (orbit stp e.start_time k).toAbs ≤
      min repeat_end.toAbs end_date.toAbs)
    (hwin : start_date.toAbs ≤
      (addSecs duration (orbit stp e.start_time k)).toAbs) :
    ∀ fuel cnt j, j ≤ k → k - j < fuel →
      computedInstanceDict e (orbit stp e.start_time k)
          (addSecs duration (orbit stp e.start_time k)) Option.none ∈
        mainGo e duration repeat_end start_date end_date Option.none [] cache fuel
          cnt (orbit stp e.start_time j) := by
  intro fuel
  induction fuel with
  | zero =>
      intro cnt j hj hf
      omega
  | succ f ih =>
      intro cnt j hj hf
      rw [mainGo_succ]
      have hcond : (orbit stp e.start_time j).toAbs ≤
          min repeat_end.toAbs end_date.toAbs :=
        le_trans (orbit_toAbs_mono stp hg e.start_time hsv hj) hbound
      rw [if_pos hcond]
      rw [if_neg (fun hc => hnc ⟨hc.1, hc.2.1⟩)]
      dsimp only
      rw [hst (orbit stp e.start_time j)]
      rcases Nat.lt_or_ge j k with hlt | hge
      · refine List.mem_append_right _ ?_
        have hnext : stp (orbit stp e.start_time j) =
            orbit stp e.start_time (j + 1) := (orbit_succ stp e.start_time j).symm
        rw [hnext]
        exact ih (cnt + 1) (j + 1) (by omega) (by omega)
      · have hjk : j = k := by omega
        subst hjk
        refine List.mem_append_left _ ?_
        rw [if_pos ⟨hwin, (le_min_iff.mp hbound).2⟩]
        rw [overlayOccurrence_nil_computed]
        exact List.mem_singleton.mpr rfl

theorem weeklyGo_le_until (e : Event) (allowed : List Int) (duration : Int)
    (repeat_end : DT) (mwc : Option Int) (start_date end_date : DT)
    (cache : Nat → Option Event) (u : DT)
    (hdt : e.repeat_end_type = RepeatEndTypeEnum.date)
    (hu : e.repeat_until = some u) :
    ∀ fuel wn cyc,
      ∀ inst ∈ weeklyGo e allowed duration repeat_end mwc start_date end_date
          Option.none [] cache fuel wn cyc,
        inst.start_time.toAbs ≤ u.toAbs := by
  intro fuel
  induction fuel with
  | zero =>
      intro wn cyc inst hmem
      cases hmem
  | succ f ih =>
      intro wn cyc inst hmem
      rw [weeklyGo_succ] at hmem
      split at hmem
      · cases hmem
      · split at hmem
        · split at hmem
          · cases hmem
          · rw [List.mem_append] at hmem
            rcases hmem with h | h
            · exact weekInstances_le_until e allowed duration start_date end_date
                cache wn u hdt hu inst h
            · exact ih _ _ inst h
        · exact ih _ _ inst hmem

/-- When does the repeat rule of `e` (as implemented by the generator's
advance chains) place an occurrence at `t`?  Weekly events with a truthy
`repeat_days` enumerate interval-matched week cycles and allowed weekday
offsets; the other repeating types step from `start_time` by the interval. -/
def occursAt (e : Event) (t : DT) : Prop :=
  match e.repeat_type with
  | RepeatTypeEnum.daily =>
      ∃ k : Nat, t = orbit (addDays e.repeat_interval) e.start_time k
  | RepeatTypeEnum.weekly =>
      if optStrTruthy e.repeat_days then
        ∃ w off : Nat, off < 7 ∧ w % e.repeat_interval = 0 ∧
          (addDays (7 * w + off) e.start_time).weekday ∈
            allowedWeekdays (e.repeat_days.getD "") ∧
          t = addDays (7 * w + off) e.start_time
      else
        ∃ k : Nat, t = orbit (addDays (7 * e.repeat_interval)) e.start_time k
  | RepeatTypeEnum.monthly =>
      ∃ k : Nat, t = orbit (monthAdd e.repeat_interval) e.start_time k
  | RepeatTypeEnum.yearly =>
      ∃ k : Nat, t = orbit (yearAdd e.repeat_interval) e.start_time k
  | _ => t = e.start_time

theorem mainBranch_reaches (e : Event) (stp : DT → DT)
    (u start_date end_date : DT) (cache : Nat → Option Event)
    (hst : ∀ x : DT, stepOccurrence e x = some (stp x))
    (hg : GoodStep stp) (hsv : e.start_time.Valid)
    (hdt : e.repeat_end_type = RepeatEndTypeEnum.date)
    (k : Nat) (hk1 : 1 ≤ k)
    (hbound : (orbit stp e.start_time k).toAbs ≤ min u.toAbs end_date.toAbs)
    (hwin : start_date.toAbs ≤ (addSecs (e.end_time.toAbs - e.start_time.toAbs)
      (orbit stp e.start_time k)).toAbs) :
    ∃ inst ∈ mainGo e (e.end_time.toAbs - e.start_time.toAbs) u start_date
        end_date Option.none [] cache (mainFuel e u end_date) 0
        ((stepOccurrence e e.start_time).getD e.start_time),
      inst.start_time = orbit stp e.start_time k := by
  have hnc : ¬ (e.repeat_end_type = RepeatEndTypeEnum.count ∧
      optIntTruthy e.repeat_count) := by
    intro hc
    rw [hdt] at hc
    exact absurd hc.1 (by decide)
  have h1 : (stepOccurrence e e.start_time).getD e.start_time =
      orbit stp e.start_time 1 := by
    rw [hst e.start_time, Option.getD_some]
    exact (orbit_succ stp e.start_time 0).symm
  have hge := orbit_toAbs_ge stp hg e.start_time hsv k
  have hfuel : k - 1 < mainFuel e u end_date := by
    unfold mainFuel
    have hde : 86400 * ((min u.toAbs end_date.toAbs - e.start_time.toAbs).ediv
          86400) +
        (min u.toAbs end_date.toAbs - e.start_time.toAbs).emod 86400 =
        min u.toAbs end_date.toAbs - e.start_time.toAbs :=
      Int.ediv_add_emod _ _
    have hm1 : 0 ≤ (min u.toAbs end_date.toAbs - e.start_time.toAbs).emod 86400 :=
      Int.emod_nonneg _ (by norm_num)
    have hm2 : (min u.toAbs end_date.toAbs - e.start_time.toAbs).emod 86400 <
        86400 :=
      Int.emod_lt_of_pos _ (by norm_num)
    omega
  rw [h1]
  exact ⟨_, mainGo_reaches e stp (e.end_time.toAbs - e.start_time.toAbs) u
    start_date end_date cache hst hg hsv hnc k hbound hwin
    (mainFuel e u end_date) 0 1 hk1 hfuel, rfl⟩

/-- C5: the `repeat_until` bound is inclusive.  For a repeating event with
`repeat_end_type = date` and `repeat_until = u` (interval at least 1, valid
start), (a) every instance the generator emits — in either branch — starts
at or before `u`, so an occurrence strictly after `u` is never produced;
and (b) any occurrence of the repeat rule whose start equals `u` exactly
(other than the base occurrence) is emitted whenever the query window
admits it. -/
theorem c5_until_inclusive (e : Event) (u start_date end_date : DT)
    (cache : Nat → Option Event)
    (hdt : e.repeat_end_type = RepeatEndTypeEnum.date)
    (hu : e.repeat_until = some u)
    (hi : 1 ≤ e.repeat_interval) (hsv : e.start_time.Valid) :
    (∀ inst ∈ generate_repeat_instances e start_date end_date Option.none []
        cache, inst.start_time.toAbs ≤ u.toAbs) ∧
    (∀ t : DT, occursAt e t → t.toAbs = u.toAbs →
      e.start_time.toAbs < t.toAbs →
      start_date.toAbs ≤
        (addSecs (e.end_time.toAbs - e.start_time.toAbs) t).toAbs →
      t.toAbs ≤ end_date.toAbs →
      ∃ inst ∈ generate_repeat_instances e start_date end_date Option.none []
          cache, inst.start_time = t) := by
  by_cases hnone : e.repeat_type = RepeatTypeEnum.none
  · constructor
    · intro inst hmem
      unfold generate_repeat_instances at hmem
      rw [if_pos hnone] at hmem
      cases hmem
    · intro t hocc hteq hlt hw1 hw2
      exfalso
      unfold occursAt at hocc
      simp only [hnone] at hocc
      rw [hocc] at hlt
      exact absurd hlt (lt_irrefl _)
  · have hgen : generate_repeat_instances e start_date end_date Option.none []
        cache =
        if e.repeat_type = RepeatTypeEnum.weekly ∧
            optStrTruthy e.repeat_days = true then
          weeklyGo e (allowedWeekdays (e.repeat_days.getD ""))
            (e.end_time.toAbs - e.start_time.toAbs) u Option.none start_date
            end_date Option.none [] cache (weeklyFuel e u) 0 0
        else
          mainGo e (e.end_time.toAbs - e.start_time.toAbs) u start_date end_date
            Option.none [] cache (mainFuel e u end_date) 0
            ((stepOccurrence e e.start_time).getD e.start_time) := by
      unfold generate_repeat_instances
      rw [if_neg hnone]
      dsimp only
      rw [hu]
      by_cases hw : e.repeat_type = RepeatTypeEnum.weekly ∧
          optStrTruthy e.repeat_days = true
      · rw [if_pos hw, if_pos hw]
        rw [if_pos (show e.repeat_end_type = RepeatEndTypeEnum.date ∧
          (some u).isSome = true from ⟨hdt, rfl⟩)]
        rw [if_neg (show ¬ e.repeat_end_type = RepeatEndTypeEnum.count by
          rw [hdt]
          decide)]
        rw [Option.getD_some]
      · rw [if_neg hw, if_neg hw]
        rw [if_pos (show e.repeat_end_type = RepeatEndTypeEnum.date ∧
          (some u).isSome = true from ⟨hdt, rfl⟩)]
        rw [Option.getD_some]
    constructor
    · intro inst hmem
      rw [hgen] at hmem
      by_cases hw : e.repeat_type = RepeatTypeEnum.weekly ∧
          optStrTruthy e.repeat_days = true
      · rw [if_pos hw] at hmem
        exact weeklyGo_le_until e (allowedWeekdays (e.repeat_days.getD ""))
          (e.end_time.toAbs - e.start_time.toAbs) u Option.none start_date
          end_date cache u hdt hu (weeklyFuel e u) 0 0 inst hmem
      · rw [if_neg hw] at hmem
        exact mainGo_le_bound e (e.end_time.toAbs - e.start_time.toAbs) u
          start_date end_date cache (mainFuel e u end_date) 0 _ inst hmem
    · intro t hocc hteq hlt hw1 hw2
      rw [hgen]
      cases hty : e.repeat_type with
      | none => exact absurd hty hnone
      | custom =>
          exfalso
          unfold occursAt at hocc
          simp only [hty] at hocc
          rw [hocc] at hlt
          exact absurd hlt (lt_irrefl _)
      | daily =>
          unfold occursAt at hocc
          simp only [hty] at hocc
          obtain ⟨k, rfl⟩ := hocc
          rw [if_neg (show ¬ (RepeatTypeEnum.daily = RepeatTypeEnum.weekly ∧
              optStrTruthy e.repeat_days = true) from
            fun hc => absurd hc.1 (by decide))]
          have hst : ∀ x : DT,
              stepOccurrence e x = some (addDays e.repeat_interval x) := by
            intro x
            unfold stepOccurrence
            rw [hty]
          have hk1 : 1 ≤ k := by
            by_contra hk0
            have hk : k = 0 := by omega
            subst hk
            have h0 : orbit (addDays e.repeat_interval) e.start_time 0 =
                e.start_time := rfl
            rw [h0] at hlt
            exact absurd hlt (lt_irrefl _)
          exact mainBranch_reaches e (addDays e.repeat_interval) u start_date
            end_date cache hst (goodStep_addDays e.repeat_interval hi) hsv hdt k
            hk1 (le_min_iff.mpr ⟨le_of_eq hteq, hw2⟩) hw1
      | weekly =>
          by_cases htr : optStrTruthy e.repeat_days = true
          · unfold occursAt at hocc
            simp only [hty] at hocc
            rw [if_pos htr] at hocc
            obtain ⟨w, off, hoff, hwi, hwd, rfl⟩ := hocc
            rw [if_pos (show RepeatTypeEnum.weekly = RepeatTypeEnum.weekly ∧
              optStrTruthy e.repeat_days = true from ⟨rfl, htr⟩)]
            have habs := addDays_toAbs (7 * w + off) e.start_time hsv
            have hle : (addDays (7 * w + off) e.start_time).toAbs ≤ u.toAbs :=
              le_of_eq hteq
            have hne : ¬ (addDays (7 * w + off) e.start_time).toAbs =
                e.start_time.toAbs := by omega
            have hws : (addDays (7 * w) e.start_time).toAbs ≤ u.toAbs := by
              rw [addDays_toAbs _ _ hsv]
              push_cast at habs ⊢
              omega
            have hfw : w - 0 < weeklyFuel e u := by
              unfold weeklyFuel
              have hde : (7 : Int) * 86400 *
                    ((u.toAbs - e.start_time.toAbs).ediv (7 * 86400)) +
                  (u.toAbs - e.start_time.toAbs).emod (7 * 86400) =
                  u.toAbs - e.start_time.toAbs :=
                Int.ediv_add_emod _ _
              have hm1 : 0 ≤ (u.toAbs - e.start_time.toAbs).emod (7 * 86400) :=
                Int.emod_nonneg _ (by norm_num)
              have hm2 : (u.toAbs - e.start_time.toAbs).emod (7 * 86400) <
                  7 * 86400 :=
                Int.emod_lt_of_pos _ (by norm_num)
              push_cast at habs
              omega
            exact ⟨_, weeklyGo_reaches e (allowedWeekdays (e.repeat_days.getD ""))
              (e.end_time.toAbs - e.start_time.toAbs) u start_date end_date cache
              w hsv hws hwi (weeklyFuel e u) 0 0 (Nat.zero_le w) hfw _
              (weekInstances_contains e (allowedWeekdays (e.repeat_days.getD ""))
                (e.end_time.toAbs - e.start_time.toAbs) start_date end_date cache
                w off u hoff hsv hwd hdt hu hle hne hw1 hw2), rfl⟩
          · unfold occursAt at hocc
            simp only [hty] at hocc
            rw [if_neg htr] at hocc
            obtain ⟨k, rfl⟩ := hocc
            rw [if_neg (show ¬ (RepeatTypeEnum.weekly = RepeatTypeEnum.weekly ∧
                optStrTruthy e.repeat_days = true) from
              fun hc => htr hc.2)]
            have hst : ∀ x : DT,
                stepOccurrence e x =
                  some (addDays (7 * e.repeat_interval) x) := by
              intro x
              unfold stepOccurrence
              rw [hty]
            have hk1 : 1 ≤ k := by
              by_contra hk0
              have hk : k = 0 := by omega
              subst hk
              have h0 : orbit (addDays (7 * e.repeat_interval)) e.start_time 0 =
                  e.start_time := rfl
              rw [h0] at hlt
              exact absurd hlt (lt_irrefl _)
            exact mainBranch_reaches e (addDays (7 * e.repeat_interval)) u
              start_date end_date cache hst
              (goodStep_addDays (7 * e.repeat_interval) (by omega)) hsv hdt k
              hk1 (le_min_iff.mpr ⟨le_of_eq hteq, hw2⟩) hw1
      | monthly =>
          unfold occursAt at hocc
          simp only [hty] at hocc
          obtain ⟨k, rfl⟩ := hocc
          rw [if_neg (show ¬ (RepeatTypeEnum.monthly = RepeatTypeEnum.weekly ∧
              optStrTruthy e.repeat_days = true) from
            fun hc => absurd hc.1 (by decide))]
          have hst : ∀ x : DT,
              stepOccurrence e x = some (monthAdd e.repeat_interval x) := by
            intro x
            unfold stepOccurrence
            rw [hty]
          have hk1 : 1 ≤ k := by
            by_contra hk0
            have hk : k = 0 := by omega
            subst hk
            have h0 : orbit (monthAdd e.repeat_interval) e.start_time 0 =
                e.start_time := rfl
            rw [h0] at hlt
            exact absurd hlt (lt_irrefl _)
          exact mainBranch_reaches e (monthAdd e.repeat_interval) u start_date
            end_date cache hst (goodStep_monthAdd e.repeat_interval hi) hsv hdt k
            hk1 (le_min_iff.mpr ⟨le_of_eq hteq, hw2⟩) hw1
      | yearly =>
          unfold occursAt at hocc
          simp only [hty] at hocc
          obtain ⟨k, rfl⟩ := hocc
          rw [if_neg (show ¬ (RepeatTypeEnum.yearly = RepeatTypeEnum.weekly ∧
              optStrTruthy e.repeat_days = true) from
            fun hc => absurd hc.1 (by decide))]
          have hst : ∀ x : DT,
              stepOccurrence e x = some (yearAdd e.repeat_interval x) := by
            intro x
            unfold stepOccurrence
            rw [hty]
          have hk1 : 1 ≤ k := by
            by_contra hk0
            have hk : k = 0 := by omega
            subst hk
            have h0 : orbit (yearAdd e.repeat_interval) e.start_time 0 =
                e.start_time := rfl
            rw [h0] at hlt
            exact absurd hlt (lt_irrefl _)
          exact mainBranch_reaches e (yearAdd e.repeat_interval) u start_date
            end_date cache hst (goodStep_yearAdd e.repeat_interval hi) hsv hdt k
            hk1 (le_min_iff.mpr ⟨le_of_eq hteq, hw2⟩) hw1

def c5Event : Event :=
  { id := 50, user_id := 7, title := "meds",
    start_time := ⟨2024, 1, 1, 36000⟩, end_time := ⟨2024, 1, 1, 39600⟩,
    repeat_type := RepeatTypeEnum.daily, repeat_interval := 1,
    repeat_end_type := RepeatEndTypeEnum.date,
    repeat_until := some ⟨2024, 1, 5, 36000⟩, created_by := 7 }

theorem c5_until_inclusive_witness :
    (∀ inst ∈ generate_repeat_instances c5Event ⟨2024, 1, 1, 0⟩ ⟨2024, 2, 1, 0⟩
        Option.none [] (fun _ => Option.none),
      inst.start_time.toAbs ≤ (⟨2024, 1, 5, 36000⟩ : DT).toAbs) ∧
    (∃ inst ∈ generate_repeat_instances c5Event ⟨2024, 1, 1, 0⟩ ⟨2024, 2, 1, 0⟩
        Option.none [] (fun _ => Option.none),
      inst.start_time = (⟨2024, 1, 5, 36000⟩ : DT)) := by
  have h := c5_until_inclusive c5Event ⟨2024, 1, 5, 36000⟩ ⟨2024, 1, 1, 0⟩
    ⟨2024, 2, 1, 0⟩ (fun _ => Option.none) rfl rfl (by decide) (by decide)
  exact ⟨h.1, h.2 ⟨2024, 1, 5, 36000⟩ ⟨4, by decide⟩ rfl (by decide) (by decide)
    (by decide)⟩

theorem c1_week_eq (e : Event) (allowed : List Int) (duration : Int)
    (start_date end_date : DT) (cache : Nat → Option Event) (w : Nat)
    (hw : w ≤ 1) (hsv : e.start_time.Valid)
    (hct : e.repeat_end_type = RepeatEndTypeEnum.count)
    (hdur : 0 ≤ duration)
    (hsd : start_date.toAbs ≤ e.start_time.toAbs)
    (hed : e.start_time.toAbs + 86400 * 14 ≤ end_date.toAbs) :
    weekInstances e allowed duration start_date end_date Option.none [] cache w =
      (List.range 7).filterMap (fun off =>
        if (addDays (7 * w + off) e.start_time).weekday ∈ allowed ∧
            0 < 7 * w + off then
          some (computedInstanceDict e (addDays (7 * w + off) e.start_time)
            (addSecs duration (addDays (7 * w + off) e.start_time)) Option.none)
        else Option.none) := by
  unfold weekInstances
  refine List.filterMap_congr ?_
  intro off hoffmem
  have hoff : off < 7 := List.mem_range.mp hoffmem
  dsimp only
  have hcheck : addDays off (addDays (7 * w) e.start_time) =
      addDays (7 * w + off) e.start_time := by
    rw [addDays_add, Nat.add_comm]
  rw [hcheck]
  have habs := addDays_toAbs (7 * w + off) e.start_time hsv
  by_cases hwd : (addDays (7 * w + off) e.start_time).weekday ∈ allowed
  · have hge : e.start_time.toAbs ≤ (addDays (7 * w + off) e.start_time).toAbs := by
      rw [habs]
      omega
    rw [if_pos ⟨hwd, hge⟩]
    rw [DT.rebuild_eq _ _ (addDays_sod (7 * w + off) e.start_time)]
    rw [if_neg (show ¬ (e.repeat_end_type = RepeatEndTypeEnum.date ∧
        e.repeat_until.isSome = true ∧
        (e.repeat_until.getD (addDays (7 * w + off) e.start_time)).toAbs <
          (addDays (7 * w + off) e.start_time).toAbs) by
      intro hc
      rw [hct] at hc
      exact absurd hc.1 (by decide))]
    by_cases hz : 7 * w + off = 0
    · rw [if_pos (show (addDays (7 * w + off) e.start_time).toAbs =
        e.start_time.toAbs by
        rw [hz]
        rfl)]
      rw [if_neg (show ¬ ((addDays (7 * w + off) e.start_time).weekday ∈ allowed ∧
          0 < 7 * w + off) from fun hc => absurd hc.2 (by omega))]
    · rw [if_neg (show ¬ (addDays (7 * w + off) e.start_time).toAbs =
        e.start_time.toAbs by
        rw [habs]
        omega)]
      rw [if_pos (show start_date.toAbs ≤
          (addSecs duration (addDays (7 * w + off) e.start_time)).toAbs ∧
          (addDays (7 * w + off) e.start_time).toAbs ≤ end_date.toAbs from
        ⟨by
          rw [addSecs_toAbs duration _ (addDays_valid _ _ hsv) hdur, habs]
          omega,
        by
          rw [habs]
          have hle13 : 7 * w + off ≤ 13 := by omega
          have hcast : ((7 * w + off : Nat) : Int) ≤ 13 := by
            exact_mod_cast hle13
          omega⟩)]
      rw [if_pos (show (addDays (7 * w + off) e.start_time).weekday ∈ allowed ∧
          0 < 7 * w + off from ⟨hwd, by omega⟩)]
      exact overlayOccurrence_nil_computed e _ _ Option.none cache
  · rw [if_neg (show ¬ ((addDays (7 * w + off) e.start_time).weekday ∈ allowed ∧
        e.start_time.toAbs ≤ (addDays (7 * w + off) e.start_time).toAbs) from
      fun hc => hwd hc.1)]
    rw [if_neg (show ¬ ((addDays (7 * w + off) e.start_time).weekday ∈ allowed ∧
        0 < 7 * w + off) from fun hc => hwd hc.1)]

theorem filterMap_ite_length {α β : Type} (l : List α) (c : α → Prop)
    [DecidablePred c] (g : α → β) :
    (l.filterMap (fun a => if c a then some (g a) else Option.none)).length =
      l.countP (fun a => decide (c a)) := by
  induction l with
  | nil => rfl
  | cons x xs ih =>
      by_cases hc : c x
      · simp [List.filterMap_cons, hc, List.countP_cons, ih]
      · simp [List.filterMap_cons, hc, List.countP_cons, ih]

/-- C1: weekly week-cycle counting.  For a weekly event with
`repeat_days = "0,2,4"`, `repeat_interval = 1`, `repeat_end_type = count`
and `repeat_count = 2` (valid start, end at or after start) over a window
containing the first two weeks, the generator emits exactly the first two
week cycles; the output holds 5 or 6 concrete dates — 6 minus one when the
base start falls on an allowed weekday, since the base occurrence is
skipped — never 2 raw dates; and every emitted start lies within 14 days
of the base start. -/
theorem c1_weekly_cycle_counting (e : Event) (start_date end_date : DT)
    (cache : Nat → Option Event)
    (hty : e.repeat_type = RepeatTypeEnum.weekly)
    (hdays : e.repeat_days = some "0,2,4")
    (hi : e.repeat_interval = 1)
    (hct : e.repeat_end_type = RepeatEndTypeEnum.count)
    (hcnt : e.repeat_count = some 2)
    (hsv : e.start_time.Valid)
    (hdur : e.start_time.toAbs ≤ e.end_time.toAbs)
    (hsd : start_date.toAbs ≤ e.start_time.toAbs)
    (hed : e.start_time.toAbs + 86400 * 14 ≤ end_date.toAbs) :
    generate_repeat_instances e start_date end_date Option.none [] cache =
      weekInstances e [0, 2, 4] (e.end_time.toAbs - e.start_time.toAbs)
          start_date end_date Option.none [] cache 0 ++
        weekInstances e [0, 2, 4] (e.end_time.toAbs - e.start_time.toAbs)
          start_date end_date Option.none [] cache 1 ∧
    (generate_repeat_instances e start_date end_date Option.none []
        cache).length =
      (if e.start_time.weekday ∈ ([0, 2, 4] : List Int) then 5 else 6) ∧
    ∀ inst ∈ generate_repeat_instances e start_date end_date Option.none []
        cache,
      e.start_time.toAbs ≤ inst.start_time.toAbs ∧
        inst.start_time.toAbs < e.start_time.toAbs + 86400 * 14 := by
  have hallowed : allowedWeekdays "0,2,4" = [0, 2, 4] := by
    unfold allowedWeekdays
    rw [show "0,2,4".splitOn "," = ["0", "2", "4"] by
      simp only [String.splitOn]
      simp +decide [String.splitOnAux]]
    simp +decide [String.toInt?, String.toNat?, String.foldl, String.foldlAux,
      String.isNat, String.all, String.any, String.anyAux]
  have hdur0 : (0 : Int) ≤ e.end_time.toAbs - e.start_time.toAbs := by omega
  have hL : generate_repeat_instances e start_date end_date Option.none []
      cache =
      weekInstances e [0, 2, 4] (e.end_time.toAbs - e.start_time.toAbs)
          start_date end_date Option.none [] cache 0 ++
        weekInstances e [0, 2, 4] (e.end_time.toAbs - e.start_time.toAbs)
          start_date end_date Option.none [] cache 1 := by
    unfold generate_repeat_instances
    rw [if_neg (show ¬ e.repeat_type = RepeatTypeEnum.none by
      rw [hty]
      decide)]
    dsimp only
    rw [if_pos (show e.repeat_type = RepeatTypeEnum.weekly ∧
        optStrTruthy e.repeat_days = true from ⟨hty, by rw [hdays]; decide⟩)]
    rw [if_neg (show ¬ (e.repeat_end_type = RepeatEndTypeEnum.date ∧
        e.repeat_until.isSome = true) by
      intro hc
      rw [hct] at hc
      exact absurd hc.1 (by decide))]
    rw [if_pos (show e.repeat_end_type = RepeatEndTypeEnum.count ∧
        optIntTruthy e.repeat_count = true from ⟨hct, by rw [hcnt]; decide⟩)]
    rw [if_pos hct, hcnt, hdays, Option.getD_some, hallowed]
    have hfe : ∃ f, weeklyFuel e end_date = f + 3 := by
      refine ⟨((end_date.toAbs - e.start_time.toAbs).ediv (7 * 86400)).toNat - 1,
        ?_⟩
      unfold weeklyFuel
      have hde : (7 : Int) * 86400 *
            ((end_date.toAbs - e.start_time.toAbs).ediv (7 * 86400)) +
          (end_date.toAbs - e.start_time.toAbs).emod (7 * 86400) =
          end_date.toAbs - e.start_time.toAbs :=
        Int.ediv_add_emod _ _
      have hm1 : 0 ≤ (end_date.toAbs - e.start_time.toAbs).emod (7 * 86400) :=
        Int.emod_nonneg _ (by norm_num)
      have hm2 : (end_date.toAbs - e.start_time.toAbs).emod (7 * 86400) <
          7 * 86400 :=
        Int.emod_lt_of_pos _ (by norm_num)
      omega
    obtain ⟨f, hf⟩ := hfe
    rw [hf, weeklyGo_succ]
    rw [if_neg (show ¬ end_date.toAbs < (addDays (7 * 0) e.start_time).toAbs by
      rw [show addDays (7 * 0) e.start_time = e.start_time from rfl]
      omega)]
    rw [if_pos (show 0 % e.repeat_interval = 0 by rw [hi])]
    rw [if_neg (show ¬ cycleLimitReached (some 2) 0 = true by decide)]
    rw [weeklyGo_succ]
    rw [if_neg (show ¬ end_date.toAbs <
        (addDays (7 * (0 + 1)) e.start_time).toAbs by
      rw [addDays_toAbs _ _ hsv]
      push_cast
      omega)]
    rw [if_pos (show (0 + 1) % e.repeat_interval = 0 by rw [hi])]
    rw [if_neg (show ¬ cycleLimitReached (some 2) (0 + 1) = true by decide)]
    rw [weeklyGo_succ]
    rw [if_neg (show ¬ end_date.toAbs <
        (addDays (7 * (0 + 1 + 1)) e.start_time).toAbs by
      rw [addDays_toAbs _ _ hsv]
      push_cast
      omega)]
    rw [if_pos (show (0 + 1 + 1) % e.repeat_interval = 0 by rw [hi])]
    rw [if_pos (show cycleLimitReached (some 2) (0 + 1 + 1) = true by decide)]
    rw [List.append_nil]
  have hweq : ∀ w : Nat, w ≤ 1 →
      weekInstances e [0, 2, 4] (e.end_time.toAbs - e.start_time.toAbs)
        start_date end_date Option.none [] cache w =
      (List.range 7).filterMap (fun off =>
        if (addDays (7 * w + off) e.start_time).weekday ∈ ([0, 2, 4] : List Int) ∧
            0 < 7 * w + off then
          some (computedInstanceDict e (addDays (7 * w + off) e.start_time)
            (addSecs (e.end_time.toAbs - e.start_time.toAbs)
              (addDays (7 * w + off) e.start_time)) Option.none)
        else Option.none) :=
    fun w hw => c1_week_eq e [0, 2, 4] (e.end_time.toAbs - e.start_time.toAbs)
      start_date end_date cache w hw hsv hct hdur0 hsd hed
  refine ⟨hL, ?_, ?_⟩
  · rw [hL, List.length_append, hweq 0 (by omega), hweq 1 (by omega),
      filterMap_ite_length, filterMap_ite_length]
    have hwk : ∀ k, (addDays k e.start_time).weekday =
        (((e.start_time.dateIdx + k) % 7 : Nat) : Int) :=
      fun k => addDays_weekday k e.start_time hsv
    simp only [hwk]
    have hmod : ∀ n : Nat, (e.start_time.dateIdx + n) % 7 =
        (e.start_time.dateIdx % 7 + n) % 7 := fun n => by omega
    simp only [hmod]
    rw [show e.start_time.weekday =
      ((e.start_time.dateIdx % 7 : Nat) : Int) from rfl]
    have h7 : e.start_time.dateIdx % 7 < 7 := Nat.mod_lt _ (by norm_num)
    generalize hr : e.start_time.dateIdx % 7 = r at h7 ⊢
    interval_cases r <;> decide
  · intro inst hmem
    rw [hL, hweq 0 (by omega), hweq 1 (by omega), List.mem_append] at hmem
    have key : ∀ w : Nat, w ≤ 1 →
        inst ∈ (List.range 7).filterMap (fun off =>
          if (addDays (7 * w + off) e.start_time).weekday ∈
              ([0, 2, 4] : List Int) ∧ 0 < 7 * w + off then
            some (computedInstanceDict e (addDays (7 * w + off) e.start_time)
              (addSecs (e.end_time.toAbs - e.start_time.toAbs)
                (addDays (7 * w + off) e.start_time)) Option.none)
          else Option.none) →
        e.start_time.toAbs ≤ inst.start_time.toAbs ∧
          inst.start_time.toAbs < e.start_time.toAbs + 86400 * 14 := by
      intro w hw hmem2
      rw [List.mem_filterMap] at hmem2
      obtain ⟨off, hoffmem, hsome⟩ := hmem2
      have hoff : off < 7 := List.mem_range.mp hoffmem
      split at hsome
      · obtain rfl := Option.some.inj hsome
        have habs := addDays_toAbs (7 * w + off) e.start_time hsv
        rw [show (computedInstanceDict e (addDays (7 * w + off) e.start_time)
          (addSecs (e.end_time.toAbs - e.start_time.toAbs)
            (addDays (7 * w + off) e.start_time)) Option.none).start_time =
          addDays (7 * w + off) e.start_time from rfl]
        rw [habs]
        have hle13 : 7 * w + off ≤ 13 := by omega
        have hcast : ((7 * w + off : Nat) : Int) ≤ 13 := by exact_mod_cast hle13
        omega
      · cases hsome
    rcases hmem with h | h
    · exact key 0 (by omega) h
    · exact key 1 (by omega) h

def c1Event : Event :=
  { id := 60, user_id := 3, title := "workout",
    start_time := ⟨2024, 1, 1, 32400⟩, end_time := ⟨2024, 1, 1, 36000⟩,
    repeat_type := RepeatTypeEnum.weekly, repeat_interval := 1,
    repeat_days := some "0,2,4",
    repeat_end_type := RepeatEndTypeEnum.count, repeat_count := some 2,
    created_by := 3 }

theorem c1_weekly_cycle_counting_witness :
    (generate_repeat_instances c1Event ⟨2024, 1, 1, 0⟩ ⟨2024, 2, 1, 0⟩
        Option.none [] (fun _ => Option.none)).length = 5 ∧
    ∀ inst ∈ generate_repeat_instances c1Event ⟨2024, 1, 1, 0⟩ ⟨2024, 2, 1, 0⟩
        Option.none [] (fun _ => Option.none),
      c1Event.start_time.toAbs ≤ inst.start_time.toAbs ∧
        inst.start_time.toAbs < c1Event.start_time.toAbs + 86400 * 14 := by
  have h := c1_weekly_cycle_counting c1Event ⟨2024, 1, 1, 0⟩ ⟨2024, 2, 1, 0⟩
    (fun _ => Option.none) rfl rfl rfl rfl rfl (by decide) (by decide)
    (by decide) (by decide)
  refine ⟨?_, h.2.2⟩
  rw [h.2.1]
  decide

theorem prevStepGo_run (stp : DT → DT) (hg : GoodStep stp) (t0 : DT)
    (hsv : t0.Valid) (target : DT) (K : Nat)
    (hK : (orbit stp t0 K).toAbs < target.toAbs)
    (hK1 : target.toAbs ≤ (orbit stp t0 (K + 1)).toAbs) :
    ∀ fuel j prev, j ≤ K → K - j < fuel →
      prevStepGo stp target fuel (orbit stp t0 j) prev = orbit stp t0 K := by
  intro fuel
  induction fuel with
  | zero =>
      intro j prev hj hf
      omega
  | succ f ih =>
      intro j prev hj hf
      rw [prevStepGo_succ]
      have hjlt : (orbit stp t0 j).toAbs < target.toAbs :=
        lt_of_le_of_lt (orbit_toAbs_mono stp hg t0 hsv hj) hK
      rw [if_pos hjlt]
      have hnext : stp (orbit stp t0 j) = orbit stp t0 (j + 1) :=
        (orbit_succ stp t0 j).symm
      rw [hnext]
      rcases Nat.lt_or_ge j K with hlt | hge
      · exact ih (j + 1) (orbit stp t0 j) (by omega) (by omega)
      · have hjK : j = K := by omega
        subst hjK
        cases f with
        | zero => rfl
        | succ f2 =>
            rw [prevStepGo_succ]
            rw [if_neg (by omega)]

theorem prevStep_exists_K (stp : DT → DT) (hg : GoodStep stp) (t0 : DT)
    (hsv : t0.Valid) (target : DT) (hlt : t0.toAbs < target.toAbs) :
    ∃ K : Nat, (orbit stp t0 K).toAbs < target.toAbs ∧
      target.toAbs ≤ (orbit stp t0 (K + 1)).toAbs ∧
      ((target.toAbs - t0.toAbs : Int) : Int) ≥ 86400 * K := by
  have hne : ∃ j : Nat, target.toAbs ≤ (orbit stp t0 (j + 1)).toAbs := by
    refine ⟨(target.toAbs - t0.toAbs).toNat, ?_⟩
    have hge := orbit_toAbs_ge stp hg t0 hsv ((target.toAbs - t0.toAbs).toNat + 1)
    omega
  classical
  refine ⟨Nat.find hne, ?_, Nat.find_spec hne, ?_⟩
  · cases hKv : Nat.find hne with
    | zero => exact hlt
    | succ k =>
        have hmin : ¬ target.toAbs ≤ (orbit stp t0 (k + 1)).toAbs :=
          Nat.find_min hne (by omega)
        have : (orbit stp t0 (k + 1)).toAbs < target.toAbs := by omega
        exact this
  · have hge := orbit_toAbs_ge stp hg t0 hsv (Nat.find hne)
    have hKlt : (orbit stp t0 (Nat.find hne)).toAbs < target.toAbs := by
      cases hKv : Nat.find hne with
      | zero => exact hlt
      | succ k =>
          have hmin : ¬ target.toAbs ≤ (orbit stp t0 (k + 1)).toAbs :=
            Nat.find_min hne (by omega)
          omega
    omega

theorem prevStepGo_max (stp : DT → DT) (hg : GoodStep stp) (t0 : DT)
    (hsv : t0.Valid) (target : DT) (hlt : t0.toAbs < target.toAbs) (fuel : Nat)
    (hfuel : ((target.toAbs - t0.toAbs).ediv 86400).toNat + 2 ≤ fuel) :
    ∃ K : Nat, prevStepGo stp target fuel t0 t0 = orbit stp t0 K ∧
      (orbit stp t0 K).toAbs < target.toAbs ∧
      ∀ j : Nat, (orbit stp t0 j).toAbs < target.toAbs →
        (orbit stp t0 j).toAbs ≤ (orbit stp t0 K).toAbs := by
  obtain ⟨K, hK, hK1, hKb⟩ := prevStep_exists_K stp hg t0 hsv target hlt
  have hKfuel : K < fuel := by
    have hde : 86400 * ((target.toAbs - t0.toAbs).ediv 86400) +
        (target.toAbs - t0.toAbs).emod 86400 = target.toAbs - t0.toAbs :=
      Int.ediv_add_emod _ _
    have hm1 : 0 ≤ (target.toAbs - t0.toAbs).emod 86400 :=
      Int.emod_nonneg _ (by norm_num)
    have hm2 : (target.toAbs - t0.toAbs).emod 86400 < 86400 :=
      Int.emod_lt_of_pos _ (by norm_num)
    omega
  refine ⟨K, ?_, hK, ?_⟩
  · exact prevStepGo_run stp hg t0 hsv target K hK hK1 fuel 0 t0 (by omega)
      (by omega)
  · intro j hj
    rcases le_or_lt j K with hjK | hjK
    · exact orbit_toAbs_mono stp hg t0 hsv hjK
    · have : target.toAbs ≤ (orbit stp t0 j).toAbs :=
        le_trans hK1 (orbit_toAbs_mono stp hg t0 hsv (by omega))
      omega

theorem foldl_inv {α β : Type} (f : β → α → β) (P : β → Prop) :
    ∀ (l : List α) (b : β), P b → (∀ a ∈ l, ∀ x, P x → P (f x a)) →
      P (l.foldl f b) := by
  intro l
  induction l with
  | nil =>
      intro b hb _
      exact hb
  | cons a l ih =>
      intro b hb h
      exact ih (f b a) (h a (List.mem_cons_self a l) b hb)
        (fun a2 ha2 => h a2 (List.mem_cons_of_mem a ha2))

theorem prevWeekScan_inv (e : Event) (allowed : List Int) (target : DT) (w : Nat)
    (prev : DT) (P : DT → Prop) (hprev : P prev)
    (hstep : ∀ off : Nat, off < 7 →
      (addDays (7 * w + off) e.start_time).weekday ∈ allowed →
      (addDays (7 * w + off) e.start_time).toAbs < target.toAbs →
      P (addDays (7 * w + off) e.start_time)) :
    P (prevWeekScan e allowed target w prev) := by
  unfold prevWeekScan
  refine foldl_inv _ P _ prev hprev ?_
  intro off hoffmem x hx
  have hoff : off < 7 := List.mem_range.mp hoffmem
  dsimp only
  have hcheck : addDays off (addDays (7 * w) e.start_time) =
      addDays (7 * w + off) e.start_time := by
    rw [addDays_add, Nat.add_comm]
  rw [hcheck]
  rw [DT.rebuild_eq _ _ (addDays_sod (7 * w + off) e.start_time)]
  split
  · rename_i hguard
    split
    · rename_i hocclt
      exact hstep off hoff hguard.1 hocclt
    · exact hx
  · exact hx

theorem prevWeeklyGo_inv (e : Event) (allowed : List Int) (target : DT)
    (P : DT → Prop)
    (hstep : ∀ w off : Nat, off < 7 → w % e.repeat_interval = 0 →
      (addDays (7 * w + off) e.start_time).weekday ∈ allowed →
      (addDays (7 * w + off) e.start_time).toAbs < target.toAbs →
      P (addDays (7 * w + off) e.start_time)) :
    ∀ fuel wn prev, P prev → P (prevWeeklyGo e allowed target fuel wn prev) := by
  intro fuel
  induction fuel with
  | zero =>
      intro wn prev hp
      exact hp
  | succ f ih =>
      intro wn prev hp
      rw [prevWeeklyGo_succ]
      split
      · exact hp
      · apply ih
        split
        · rename_i hmod
          exact prevWeekScan_inv e allowed target wn prev P hp
            (fun off hoff hwd hlt2 => hstep wn off hoff hmod hwd hlt2)
        · exact hp

theorem foldl_hit {α β : Type} (f : β → α → β) (P : β → Prop) (a : α)
    (l1 l2 : List α) (b : β) (hwrite : ∀ x, P (f x a))
    (hpres : ∀ a2 ∈ l2, ∀ x, P x → P (f x a2)) :
    P ((l1 ++ a :: l2).foldl f b) := by
  rw [List.foldl_append, List.foldl_cons]
  exact foldl_inv f P l2 (f (l1.foldl f b) a) (hwrite _) hpres

theorem range7_split (off : Nat) (hoff : off < 7) :
    List.range 7 = List.range off ++ off ::
      (List.range (6 - off)).map (fun i => off + 1 + i) := by
  rw [show (7 : Nat) = off + 1 + (6 - off) by omega]
  rw [List.range_add]
  rw [List.range_succ]
  simp [List.append_assoc]

theorem prevWeekScan_hit (e : Event) (allowed : List Int) (target : DT)
    (w off : Nat) (prev : DT) (hsv : e.start_time.Valid) (hoff : off < 7)
    (hwd : (addDays (7 * w + off) e.start_time).weekday ∈ allowed)
    (hlt : (addDays (7 * w + off) e.start_time).toAbs < target.toAbs) :
    (addDays (7 * w + off) e.start_time).toAbs ≤
      (prevWeekScan e allowed target w prev).toAbs := by
  have hge : e.start_time.toAbs ≤ (addDays (7 * w + off) e.start_time).toAbs := by
    rw [addDays_toAbs _ _ hsv]
    omega
  unfold prevWeekScan
  rw [range7_split off hoff]
  refine foldl_hit _
    (fun x => (addDays (7 * w + off) e.start_time).toAbs ≤ x.toAbs) off _ _ prev
    ?_ ?_
  · intro x
    dsimp only
    rw [show addDays off (addDays (7 * w) e.start_time) =
        addDays (7 * w + off) e.start_time from by rw [addDays_add, Nat.add_comm]]
    rw [DT.rebuild_eq _ _ (addDays_sod (7 * w + off) e.start_time)]
    rw [if_pos ⟨hwd, hge, hlt⟩]
    rw [if_pos hlt]
  · intro a2 ha2 x hx
    obtain ⟨i, hi, rfl⟩ := List.mem_map.mp ha2
    dsimp only
    rw [show addDays (off + 1 + i) (addDays (7 * w) e.start_time) =
        addDays (7 * w + (off + 1 + i)) e.start_time from by
      rw [addDays_add, Nat.add_comm]]
    rw [DT.rebuild_eq _ _ (addDays_sod (7 * w + (off + 1 + i)) e.start_time)]
    split
    · split
      · rw [addDays_toAbs _ _ hsv, addDays_toAbs _ _ hsv]
        have hmono : 7 * w + off ≤ 7 * w + (off + 1 + i) := by omega
        omega
      · exact hx
    · exact hx

theorem prevWeeklyGo_inv_ge (e : Event) (allowed : List Int) (target : DT)
    (P : DT → Prop) (W : Nat)
    (hstep : ∀ w off : Nat, off < 7 → W ≤ w → w % e.repeat_interval = 0 →
      (addDays (7 * w + off) e.start_time).weekday ∈ allowed →
      (addDays (7 * w + off) e.start_time).toAbs < target.toAbs →
      P (addDays (7 * w + off) e.start_time)) :
    ∀ fuel wn prev, W ≤ wn → P prev →
      P (prevWeeklyGo e allowed target fuel wn prev) := by
  intro fuel
  induction fuel with
  | zero =>
      intro wn prev hW hp
      exact hp
  | succ f ih =>
      intro wn prev hW hp
      rw [prevWeeklyGo_succ]
      split
      · exact hp
      · apply ih _ _ (by omega)
        split
        · rename_i hmod
          exact prevWeekScan_inv e allowed target wn prev P hp
            (fun off hoff hwd hlt2 => hstep wn off hoff hW hmod hwd hlt2)
        · exact hp

theorem prevWeeklyGo_hit (e : Event) (allowed : List Int) (target : DT)
    (hsv : e.start_time.Valid) (w off : Nat) (hoff : off < 7)
    (hmod : w % e.repeat_interval = 0)
    (hwd : (addDays (7 * w + off) e.start_time).weekday ∈ allowed)
    (hlt : (addDays (7 * w + off) e.start_time).toAbs < target.toAbs) :
    ∀ fuel wn prev, wn ≤ w → w - wn < fuel →
      (addDays (7 * w + off) e.start_time).toAbs ≤
        (prevWeeklyGo e allowed target fuel wn prev).toAbs := by
  intro fuel
  induction fuel with
  | zero =>
      intro wn prev hwn hf
      omega
  | succ f ih =>
      intro wn prev hwn hf
      rw [prevWeeklyGo_succ]
      have habs := addDays_toAbs (7 * w + off) e.start_time hsv
      have hws : (addDays (7 * wn) e.start_time).toAbs ≤
          (addDays (7 * w + off) e.start_time).toAbs := by
        rw [addDays_toAbs _ _ hsv, habs]
        have hmono : 7 * wn ≤ 7 * w + off := by omega
        omega
      rw [if_neg (by omega)]
      rcases Nat.lt_or_ge wn w with hlt2 | hge2
      · exact ih (wn + 1) _ (by omega) (by omega)
      · have hwnw : wn = w := by omega
        subst hwnw
        rw [if_pos hmod]
        refine prevWeeklyGo_inv_ge e allowed target
          (fun x => (addDays (7 * wn + off) e.start_time).toAbs ≤ x.toAbs)
          (wn + 1) ?_ f (wn + 1) _ (le_refl _)
          (prevWeekScan_hit e allowed target wn off prev hsv hoff hwd hlt)
        intro w2 off2 hoff2 hW2 hmod2 hwd2 hlt3
        rw [habs, addDays_toAbs _ _ hsv]
        have hmono : 7 * wn + off ≤ 7 * w2 + off2 := by omega
        omega

theorem calc_prev_props (e : Event) (D : DT) (hi : 1 ≤ e.repeat_interval)
    (hsv : e.start_time.Valid) (hlt : e.start_time.toAbs < D.toAbs) :
    (calculate_previous_occurrence e D).toAbs < D.toAbs ∧
    (calculate_previous_occurrence e D = e.start_time ∨
      occursAt e (calculate_previous_occurrence e D)) ∧
    (∀ t, occursAt e t → t.toAbs < D.toAbs →
      t.toAbs ≤ (calculate_previous_occurrence e D).toAbs) := by
  have hpf : ((D.toAbs - e.start_time.toAbs).ediv 86400).toNat + 2 ≤
      prevFuel e D := by
    unfold prevFuel
    omega
  cases hty : e.repeat_type with
  | none =>
      have hc : calculate_previous_occurrence e D = e.start_time := by
        unfold calculate_previous_occurrence
        rw [hty]
      rw [hc]
      refine ⟨hlt, Or.inl rfl, fun t hts htlt => ?_⟩
      unfold occursAt at hts
      simp only [hty] at hts
      exact le_of_eq (by rw [hts])
  | custom =>
      have hc : calculate_previous_occurrence e D = e.start_time := by
        unfold calculate_previous_occurrence
        rw [hty]
      rw [hc]
      refine ⟨hlt, Or.inl rfl, fun t hts htlt => ?_⟩
      unfold occursAt at hts
      simp only [hty] at hts
      exact le_of_eq (by rw [hts])
  | daily =>
      have hc : calculate_previous_occurrence e D =
          prevStepGo (addDays e.repeat_interval) D (prevFuel e D) e.start_time
            e.start_time := by
        unfold calculate_previous_occurrence
        rw [hty]
      obtain ⟨K, hKeq, hKlt, hKmax⟩ := prevStepGo_max (addDays e.repeat_interval)
        (goodStep_addDays e.repeat_interval hi) e.start_time hsv D hlt
        (prevFuel e D) hpf
      rw [hc, hKeq]
      refine ⟨hKlt, Or.inr ?_, fun t hts htlt => ?_⟩
      · unfold occursAt
        rw [hty]
        exact ⟨K, rfl⟩
      · unfold occursAt at hts
        simp only [hty] at hts
        obtain ⟨j, rfl⟩ := hts
        exact hKmax j htlt
  | monthly =>
      have hc : calculate_previous_occurrence e D =
          prevStepGo (monthAdd e.repeat_interval) D (prevFuel e D) e.start_time
            e.start_time := by
        unfold calculate_previous_occurrence
        rw [hty]
      obtain ⟨K, hKeq, hKlt, hKmax⟩ := prevStepGo_max (monthAdd e.repeat_interval)
        (goodStep_monthAdd e.repeat_interval hi) e.start_time hsv D hlt
        (prevFuel e D) hpf
      rw [hc, hKeq]
      refine ⟨hKlt, Or.inr ?_, fun t hts htlt => ?_⟩
      · unfold occursAt
        rw [hty]
        exact ⟨K, rfl⟩
      · unfold occursAt at hts
        simp only [hty] at hts
        obtain ⟨j, rfl⟩ := hts
        exact hKmax j htlt
  | yearly =>
      have hc : calculate_previous_occurrence e D =
          prevStepGo (yearAdd e.repeat_interval) D (prevFuel e D) e.start_time
            e.start_time := by
        unfold calculate_previous_occurrence
        rw [hty]
      obtain ⟨K, hKeq, hKlt, hKmax⟩ := prevStepGo_max (yearAdd e.repeat_interval)
        (goodStep_yearAdd e.repeat_interval hi) e.start_time hsv D hlt
        (prevFuel e D) hpf
      rw [hc, hKeq]
      refine ⟨hKlt, Or.inr ?_, fun t hts htlt => ?_⟩
      · unfold occursAt
        rw [hty]
        exact ⟨K, rfl⟩
      · unfold occursAt at hts
        simp only [hty] at hts
        obtain ⟨j, rfl⟩ := hts
        exact hKmax j htlt
  | weekly =>
      by_cases htr : optStrTruthy e.repeat_days = true
      · have hc : calculate_previous_occurrence e D =
            prevWeeklyGo e (allowedWeekdays (e.repeat_days.getD "")) D
              (prevWeeklyFuel e D) 0 e.start_time := by
          unfold calculate_previous_occurrence
          rw [hty]
          dsimp only
          rw [if_pos htr]
        have hP := prevWeeklyGo_inv e (allowedWeekdays (e.repeat_days.getD ""))
          D (fun x => x.toAbs < D.toAbs ∧ (x = e.start_time ∨ occursAt e x))
          (fun w off hoff hmod hwd hlt2 => ⟨hlt2, Or.inr (by
            unfold occursAt
            rw [hty]
            dsimp only
            rw [if_pos htr]
            exact ⟨w, off, hoff, hmod, hwd, rfl⟩)⟩)
          (prevWeeklyFuel e D) 0 e.start_time ⟨hlt, Or.inl rfl⟩
        rw [hc]
        refine ⟨hP.1, hP.2, ?_⟩
        intro t hts htlt
        unfold occursAt at hts
        simp only [hty] at hts
        rw [if_pos htr] at hts
        obtain ⟨w, off, hoff, hmod, hwd, rfl⟩ := hts
        have habs := addDays_toAbs (7 * w + off) e.start_time hsv
        have hfw : w - 0 < prevWeeklyFuel e D := by
          unfold prevWeeklyFuel
          have hde : (7 : Int) * 86400 *
                ((D.toAbs - e.start_time.toAbs).ediv (7 * 86400)) +
              (D.toAbs - e.start_time.toAbs).emod (7 * 86400) =
              D.toAbs - e.start_time.toAbs :=
            Int.ediv_add_emod _ _
          have hm1 : 0 ≤ (D.toAbs - e.start_time.toAbs).emod (7 * 86400) :=
            Int.emod_nonneg _ (by norm_num)
          have hm2 : (D.toAbs - e.start_time.toAbs).emod (7 * 86400) <
              7 * 86400 :=
            Int.emod_lt_of_pos _ (by norm_num)
          omega
        exact prevWeeklyGo_hit e (allowedWeekdays (e.repeat_days.getD "")) D hsv
          w off hoff hmod hwd htlt (prevWeeklyFuel e D) 0 e.start_time
          (Nat.zero_le w) hfw
      · have hc : calculate_previous_occurrence e D =
            prevStepGo (addDays (7 * e.repeat_interval)) D (prevFuel e D)
              e.start_time e.start_time := by
          unfold calculate_previous_occurrence
          rw [hty]
          dsimp only
          rw [if_neg htr]
        obtain ⟨K, hKeq, hKlt, hKmax⟩ := prevStepGo_max
          (addDays (7 * e.repeat_interval))
          (goodStep_addDays (7 * e.repeat_interval) (by omega)) e.start_time hsv
          D hlt (prevFuel e D) hpf
        rw [hc, hKeq]
        refine ⟨hKlt, Or.inr ?_, fun t hts htlt => ?_⟩
        · unfold occursAt
          rw [hty]
          dsimp only
          rw [if_neg htr]
          exact ⟨K, rfl⟩
        · unfold occursAt at hts
          simp only [hty] at hts
          rw [if_neg htr] at hts
          obtain ⟨j, rfl⟩ := hts
          exact hKmax j htlt

/-- C2: scope="future" at occurrence date D.  For a repeating event (valid
start, interval at least 1) and a body with scope "future", occurrence_date
D strictly after the base start, and no start_time/end_time/repeat-shape
overrides: the update commits the base with repeat_until set to
`calculate_previous_occurrence e D` and repeat_end_type = date, and creates
a continuation whose parent_event_id is the base id and whose start_time is
exactly D; the delete commits the same truncation and creates nothing.
The truncation point is strictly before D, is the base start or an
occurrence of the repeat rule, and is the maximal occurrence of the rule
strictly before D — for every rule shape, including weekly-with-days,
whose inner scan overwrites the candidate in increasing (week, offset)
order. -/
theorem c2_future_scope_truncation (e : Event) (b : UpdateBody) (D : DT)
    (role_id current_user_id new_id : Nat)
    (hrt : ¬ e.repeat_type = RepeatTypeEnum.none)
    (hperm : role_id = 1 ∨ e.user_id = current_user_id)
    (hscope : b.scope = some "future")
    (hod : b.occurrence_date = some D)
    (hhf : hasUpdateFields b = true)
    (hbs : b.start_time = Option.none) (hbe : b.end_time = Option.none)
    (hbd : b.repeat_days = Option.none) (hbt : b.repeat_type = Option.none)
    (hbet : b.repeat_end_type = Option.none)
    (hi : 1 ≤ e.repeat_interval) (hsv : e.start_time.Valid)
    (hlt : e.start_time.toAbs < D.toAbs) :
    (∃ ne : Event,
      update_event e b Option.none role_id current_user_id new_id =
        Except.ok
          { base := { e with
              repeat_until := some (calculate_previous_occurrence e D),
              repeat_end_type := RepeatEndTypeEnum.date },
            created := some ne, exceptionAdded := Option.none,
            response := event_to_dict_with_timezone ne Option.none } ∧
      ne.parent_event_id = some e.id ∧ ne.start_time = D ∧
      ne.repeat_type = e.repeat_type) ∧
    delete_event e (some "future") (some D) Option.none role_id
        current_user_id =
      Except.ok
        { base := { e with
            repeat_until := some (calculate_previous_occurrence e D),
            repeat_end_type := RepeatEndTypeEnum.date },
          deletedBase := false, exceptionAdded := Option.none,
          message := some "Future event occurrences deleted successfully" } ∧
    (calculate_previous_occurrence e D).toAbs < D.toAbs ∧
    (calculate_previous_occurrence e D = e.start_time ∨
      occursAt e (calculate_previous_occurrence e D)) ∧
    (∀ t, occursAt e t → t.toAbs < D.toAbs →
      t.toAbs ≤ (calculate_previous_occurrence e D).toAbs) := by
  have hprops := calc_prev_props e D hi hsv hlt
  have hpermneg : ¬ (role_id ≠ 1 ∧ e.user_id ≠ current_user_id) := by
    intro hc
    rcases hperm with h | h
    · exact hc.1 h
    · exact hc.2 h
  refine ⟨?_, ?_, hprops.1, hprops.2.1, hprops.2.2⟩
  · refine ⟨
      { id := new_id, parent_event_id := some e.id, user_id := e.user_id,
        title := b.title.getD e.title,
        description := b.description.getD e.description,
        start_time := D,
        end_time := addSecs (e.end_time.toAbs - e.start_time.toAbs) D,
        all_day := b.all_day.getD e.all_day,
        repeat_type := e.repeat_type,
        repeat_interval := b.repeat_interval.getD e.repeat_interval,
        repeat_days := e.repeat_days,
        repeat_until := (b.repeat_until.map
          (fun t => (some (convUserToUtc t Option.none) : Option DT))).getD
            e.repeat_until,
        repeat_end_type := e.repeat_end_type,
        repeat_count := b.repeat_count.getD e.repeat_count,
        created_by := current_user_id },
      ?_, rfl, rfl, rfl⟩
    unfold update_event
    rw [if_neg hpermneg]
    dsimp only
    rw [hscope]
    rw [Option.getD_some]
    rw [if_neg (show ¬ ¬ (hasUpdateFields b = true) from fun hc => hc hhf)]
    rw [if_neg (show ¬ ((match b.repeat_days with
        | some d => optStrTruthy d && !(validate_repeat_days_ok d)
        | Option.none => false) = true) by
      rw [hbd]
      decide)]
    rw [if_neg (show ¬ ((match b.repeat_type with
        | some s => (repeatTypeByName s).isNone
        | Option.none => false) = true) by
      rw [hbt]
      decide)]
    rw [if_neg (show ¬ ((match b.repeat_end_type with
        | some s => (repeatEndTypeByName s).isNone
        | Option.none => false) = true) by
      rw [hbet]
      decide)]
    rw [if_neg (show ¬ ((b.start_time.isSome = true ∨ b.end_time.isSome = true) ∧
        ((b.end_time.map (fun t => convUserToUtc t Option.none)).getD
          e.end_time).toAbs ≤
        ((b.start_time.map (fun t => convUserToUtc t Option.none)).getD
          e.start_time).toAbs) by
      intro hc
      rw [hbs, hbe] at hc
      exact absurd hc.1 (by decide))]
    rw [if_neg (show ¬ (e.repeat_type = RepeatTypeEnum.none ∨
        "future" = "all") by
      intro hc
      rcases hc with h | h
      · exact hrt h
      · exact absurd h (by decide))]
    rw [if_neg (show ¬ ("future" : String) = "this" by decide)]
    rw [if_pos (show ("future" : String) = "future" from rfl)]
    rw [hod, hbs, hbe, hbd, hbt, hbet]
    rfl
  · unfold delete_event
    rw [if_neg (show ¬ (role_id ≠ 1 ∧ e.user_id ≠ current_user_id) from
      hpermneg)]
    dsimp only
    rw [Option.getD_some]
    rw [if_neg (show ¬ (e.repeat_type = RepeatTypeEnum.none ∨
        ("future" : String) = "all") by
      intro hc
      rcases hc with h | h
      · exact hrt h
      · exact absurd h (by decide))]
    rw [if_neg (show ¬ ("future" : String) = "this" by decide)]
    rw [if_pos (show ("future" : String) = "future" from rfl)]
    rfl

def c2Event : Event :=
  { id := 70, user_id := 5, title := "rent",
    start_time := ⟨2024, 1, 15, 36000⟩, end_time := ⟨2024, 1, 15, 39600⟩,
    repeat_type := RepeatTypeEnum.monthly, repeat_interval := 1,
    repeat_end_type := RepeatEndTypeEnum.never, created_by := 5 }

def c2Body : UpdateBody :=
  { scope := some "future", occurrence_date := some ⟨2024, 3, 15, 36000⟩,
    title := some "trimmed" }

theorem c2_future_scope_truncation_witness :
    (calculate_previous_occurrence c2Event ⟨2024, 3, 15, 36000⟩).toAbs <
      (⟨2024, 3, 15, 36000⟩ : DT).toAbs ∧
    (calculate_previous_occurrence c2Event ⟨2024, 3, 15, 36000⟩ =
        c2Event.start_time ∨
      occursAt c2Event
        (calculate_previous_occurrence c2Event ⟨2024, 3, 15, 36000⟩)) ∧
    delete_event c2Event (some "future") (some ⟨2024, 3, 15, 36000⟩)
        Option.none 1 5 =
      Except.ok
        { base := { c2Event with
            repeat_until :=
              some (calculate_previous_occurrence c2Event ⟨2024, 3, 15, 36000⟩),
            repeat_end_type := RepeatEndTypeEnum.date },
          deletedBase := false, exceptionAdded := Option.none,
          message := some "Future event occurrences deleted successfully" } := by
  have h := c2_future_scope_truncation c2Event c2Body ⟨2024, 3, 15, 36000⟩ 1 5 99
    (by decide) (Or.inl rfl) rfl rfl (by decide) rfl rfl rfl rfl rfl (by decide)
    (by decide) (by decide)
  exact ⟨h.2.2.1, h.2.2.2.1, h.2.1⟩

def c2CxEvent : Event :=
  { id := 71, user_id := 4, title := "daily sync",
    start_time := ⟨2024, 1, 1, 36000⟩, end_time := ⟨2024, 1, 1, 39600⟩,
    repeat_type := RepeatTypeEnum.daily, repeat_interval := 1,
    repeat_end_type := RepeatEndTypeEnum.never, created_by := 4 }

def c2CxBody : UpdateBody :=
  { scope := some "future", occurrence_date := some ⟨2024, 1, 20, 36000⟩,
    start_time := some ⟨2024, 1, 1, 37800⟩ }

/-- C2 counterexamples.  (a) A future-scope delete at D equal to the base
start truncates with repeat_until = D itself — the loop never runs and the
start-fallback is committed — not an occurrence strictly before D.  (b) A
future-scope update whose body also carries start_time commits a
continuation whose start_time is the body override (2024-01-01 10:30), not
the occurrence date D = 2024-01-20 10:00 carried in the same body. -/
theorem c2_future_divergences :
    ((delete_event c2CxEvent (some "future") (some (⟨2024, 1, 1, 36000⟩ : DT))
        Option.none 1 4).toOption.map (fun eff => eff.base.repeat_until)) =
      some (some ⟨2024, 1, 1, 36000⟩) ∧
    ((update_event c2CxEvent c2CxBody Option.none 1 4 77).toOption.bind
        UpdateEffect.created).map Event.start_time =
      some (⟨2024, 1, 1, 37800⟩ : DT) ∧
    c2CxBody.occurrence_date = some ⟨2024, 1, 20, 36000⟩ := by
  refine ⟨rfl, ?_, rfl⟩
  rfl
